import Mathlib

/-!
# Verification development for the awkward-array core

Shallow embedding of

* `src/cpu-kernels/awkward_ListOffsetArray_argsort.cpp` (the argsort kernel),
* `src/libawkward/builder/Int64Builder.cpp` and
  `src/libawkward/builder/Complex128Builder.cpp` (the numeric leaf builders),
* `src/libawkward/layoutbuilder/IndexedOptionArrayBuilder.cpp` (its constructor),
* `include/awkward/array/ListOffsetArray.h` (declarations only; the members
  used here are modelled from the specification),

together with the statements of the specification that concern them.

Conventions of the embedding:

* a raw pointer `const T*` is a function `Nat → T` (no bounds are attached to a
  pointer); the accompanying length argument is kept as a separate argument,
  exactly as in the C signature;
* `int64_t` indices that are known to be non-negative are `Nat`, offsets are
  `Int` since nothing in the kernel prevents a negative offset;
* undefined behaviour (an iterator range that is not a valid range of the
  vector, a raw access outside the allocation) is the result `none`;
* a C++ exception is `Except.error`.
-/

namespace Awkward

/-! ## Element types of the kernel template -/

/-- The operations the kernel template uses on its element type `T`:
`std::isnan(static_cast<double>(x))`, `l < r` and `l > r`. -/
structure ElemType (T : Type) where
  /-- The test `std::isnan(static_cast<double>(x))`. -/
  isnan : T → Bool
  /-- The built-in `l < r`. -/
  lt : T → T → Bool
  /-- The built-in `l > r`. -/
  gt : T → T → Bool

/-- The built-in `l <= r` of an arithmetic type, in terms of the operations
above: false as soon as one side is NaN, otherwise the negation of `r < l`. -/
def ElemType.le {T : Type} (E : ElemType T) (l r : T) : Bool :=
  !E.isnan l && !E.isnan r && !E.lt r l

/-- The laws every arithmetic element type of C++ obeys: comparisons with a NaN
are false, `>` is the converse of `<`, and `<` is a strict weak order on the
values that are not NaN. -/
structure ElemType.Lawful {T : Type} (E : ElemType T) : Prop where
  gt_eq : ∀ a b, E.gt a b = E.lt b a
  nan_left : ∀ a b, E.isnan a = true → E.lt a b = false
  nan_right : ∀ a b, E.isnan b = true → E.lt a b = false
  irrefl : ∀ a, E.lt a a = false
  trans : ∀ a b c, E.lt a b = true → E.lt b c = true → E.lt a c = true
  cotrans : ∀ a b c, E.isnan b = false → E.lt a c = true →
    E.lt a b = true ∨ E.lt b c = true

/-- A value of type `double` (or `float`): NaN, the two infinities, or a finite
value. Finite values are kept as rationals, of which the finite doubles are a
subset; the two zeros compare equal and are one value here. -/
inductive F64 where
  | nan : F64
  | ninf : F64
  | fin (q : ℚ) : F64
  | pinf : F64
  deriving DecidableEq

/-- The test `std::isnan`. -/
def F64.isnan : F64 → Bool
  | .nan => true
  | _ => false

/-- IEEE comparison `l < r`: false when either side is NaN. -/
def F64.lt : F64 → F64 → Bool
  | .nan, _ => false
  | _, .nan => false
  | .ninf, .ninf => false
  | .ninf, _ => true
  | _, .ninf => false
  | .fin a, .fin b => decide (a < b)
  | .fin _, .pinf => true
  | .pinf, _ => false

/-- Element type `double` (`awkward_ListOffsetArray_argsort_float64`). -/
def float64Elem : ElemType F64 where
  isnan := F64.isnan
  lt := F64.lt
  gt := fun l r => F64.lt r l

/-- The conversion `static_cast<double>(x)` of an integer of at most 64 bits
(`int64_t` in the builders, any integer element type in the kernel): exact
below `2^53` in absolute value, otherwise rounded to 53 significant bits, ties
to even. -/
def int64_to_double (x : Int) : F64 :=
  let m := x.natAbs
  if m < 2 ^ 53 then F64.fin x
  else
    let shift := Nat.log2 m - 52
    let q := m / 2 ^ shift
    let r := m % 2 ^ shift
    let half := 2 ^ (shift - 1)
    let q1 := if half < r ∨ (r = half ∧ q % 2 = 1) then q + 1 else q
    F64.fin (if x < 0 then -((q1 * 2 ^ shift : Nat) : ℚ) else ((q1 * 2 ^ shift : Nat) : ℚ))

/-- Element type `int64_t` (`awkward_ListOffsetArray_argsort_int64`). The other
integer instantiations of the kernel, from `int8_t` to `uint64_t`, have the
same operations on their own ranges of values. -/
def int64Elem : ElemType Int where
  isnan := fun x => (int64_to_double x).isnan
  lt := fun l r => decide (l < r)
  gt := fun l r => decide (l > r)

/-- Conversion `static_cast<double>(x)` of a `bool`. -/
def bool_to_double (x : Bool) : F64 := if x then F64.fin 1 else F64.fin 0

/-- Element type `bool` as the generic templates see it: the comparisons `<`
and `>` of two `bool` compare them as the integers 0 and 1. -/
def boolElem : ElemType Bool where
  isnan := fun x => (bool_to_double x).isnan
  lt := fun l r => decide (l.toNat < r.toNat)
  gt := fun l r => decide (l.toNat > r.toNat)

/-! ## The comparators -/

/-- Explicit specialisation `awkward_ListOffsetArray_argsort_order_ascending<bool>`. -/
def awkward_ListOffsetArray_argsort_order_ascending_bool (l r : Bool) : Bool :=
  decide (l.toNat < r.toNat)

/-- Explicit specialisation `awkward_ListOffsetArray_argsort_order_descending<bool>`. -/
def awkward_ListOffsetArray_argsort_order_descending_bool (l r : Bool) : Bool :=
  decide (l.toNat > r.toNat)

/-- Template `awkward_ListOffsetArray_argsort_order_ascending<T>`. -/
def awkward_ListOffsetArray_argsort_order_ascending {T : Type} (E : ElemType T)
    (l r : T) : Bool :=
  !E.isnan r && (E.isnan l || E.lt l r)

/-- Template `awkward_ListOffsetArray_argsort_order_descending<T>`. -/
def awkward_ListOffsetArray_argsort_order_descending {T : Type} (E : ElemType T)
    (l r : T) : Bool :=
  !E.isnan r && (E.isnan l || E.gt l r)

/-! ## The library sorts -/

/-- The requirement of the C++ standard on a comparator handed to `std::sort`
and `std::stable_sort`: a strict weak ordering. -/
structure StrictWeakOrder (comp : Nat → Nat → Bool) : Prop where
  irrefl : ∀ a, comp a a = false
  trans : ∀ a b c, comp a b = true → comp b c = true → comp a c = true
  incomp_trans : ∀ a b c, comp a b = false → comp b a = false →
    comp b c = false → comp c b = false → comp a c = false ∧ comp c a = false

/-- Insertion of `x` into a sorted list, before the first element that does
not have to precede it. -/
def sorted_insert (comp : Nat → Nat → Bool) (x : Nat) : List Nat → List Nat
  | [] => [x]
  | y :: ys => if comp y x = false then x :: y :: ys else y :: sorted_insert comp x ys

/-- The library function `std::stable_sort(first, last, comp)` on the elements
of the range. For a strict weak ordering the result of a stable sort is
determined by its contract; it is computed here by insertion, last element
first. -/
def stable_sort (comp : Nat → Nat → Bool) : List Nat → List Nat
  | [] => []
  | x :: xs => sorted_insert comp x (stable_sort comp xs)

/-- The library function `std::sort(first, last, comp)` is an argument of the
model: a rearrangement of the elements of the range, of which the standard
only fixes the contract `StdSortContract`. -/
abbrev StdSort : Type := (Nat → Nat → Bool) → List Nat → List Nat

/-- The contract of `std::sort` in the C++ standard: for a strict weak
ordering the result is a rearrangement of the range in which no element is
preceded by one it has to precede. -/
structure StdSortContract (S : StdSort) : Prop where
  perm : ∀ comp l, StrictWeakOrder comp → (S comp l).Perm l
  sorted : ∀ comp l, StrictWeakOrder comp →
    (S comp l).Pairwise (fun a b => comp b a = false)

/-! ## The kernel -/

/-- The type `ERROR` of `awkward/kernels.h`, with `success()` its value
without a message. -/
inductive ERROR where
  | success : ERROR
  | failure (str : String) : ERROR
  deriving DecidableEq

/-- One `std::sort(start, stop, comp)` / `std::stable_sort(start, stop, comp)`
call of the kernel, with `start = std::next(result.begin(), offsets[i])` and
`stop = std::next(result.begin(), offsets[i + 1])`: the elements of `result`
in `[start, stop)` are rearranged by `srt`. The call is undefined unless
`[start, stop)` is a valid range of `result`. -/
def sort_range (srt : List Nat → List Nat) (result : List Nat) (start stop : Int) :
    Option (List Nat) :=
  if 0 ≤ start ∧ start ≤ stop ∧ stop ≤ (result.length : Int) then
    some (result.take start.toNat
      ++ srt ((result.drop start.toNat).take (stop.toNat - start.toNat))
      ++ result.drop stop.toNat)
  else none

/-- The loop `for (int64_t i = 0;  i < offsetslength - 1;  i++)` that each of
the four branches of the kernel runs. -/
def argsort_loop (srt : List Nat → List Nat) (offsets : Nat → Int) (offsetslength : Nat)
    (result : List Nat) : Option (List Nat) :=
  (List.range (offsetslength - 1)).foldlM
    (fun res i => sort_range srt res (offsets i) (offsets (i + 1))) result

/-- Template `awkward_ListOffsetArray_argsort<T>`. The second component of the
result is what the final loop `toptr[i] = result[i]` writes to `toptr[0..length)`. -/
def awkward_ListOffsetArray_argsort {T : Type} (S : StdSort) (E : ElemType T)
    (fromptr : Nat → T) (length : Nat) (offsets : Nat → Int) (offsetslength : Nat)
    (ascending stable : Bool) : Option (ERROR × List Nat) :=
  let result := List.range length
  let asc := fun i1 i2 =>
    awkward_ListOffsetArray_argsort_order_ascending E (fromptr i1) (fromptr i2)
  let desc := fun i1 i2 =>
    awkward_ListOffsetArray_argsort_order_descending E (fromptr i1) (fromptr i2)
  let sorted :=
    if ascending && stable then
      argsort_loop (stable_sort asc) offsets offsetslength result
    else if !ascending && stable then
      argsort_loop (stable_sort desc) offsets offsetslength result
    else if ascending && !stable then
      argsort_loop (S asc) offsets offsetslength result
    else
      argsort_loop (S desc) offsets offsetslength result
  sorted.map (fun res => (ERROR.success, res))

/-- A pointer to the first element of an array with the given elements; reads
past the end give `d`. -/
def ptr_of {T : Type} (d : T) (xs : List T) : Nat → T :=
  fun i => xs.getD i d

/-- The comparator of the ascending branches, on indices. -/
def asc_comp {T : Type} (E : ElemType T) (fromptr : Nat → T) (i1 i2 : Nat) : Bool :=
  awkward_ListOffsetArray_argsort_order_ascending E (fromptr i1) (fromptr i2)

/-- The comparator of the descending branches, on indices. -/
def desc_comp {T : Type} (E : ElemType T) (fromptr : Nat → T) (i1 i2 : Nat) : Bool :=
  awkward_ListOffsetArray_argsort_order_descending E (fromptr i1) (fromptr i2)

/-- The element type with the two comparisons exchanged: the descending
comparator of `E` is the ascending comparator of `E.swap`. -/
def ElemType.swap {T : Type} (E : ElemType T) : ElemType T where
  isnan := E.isnan
  lt := E.gt
  gt := E.lt

/-! ## The loop over the groups -/

/-- The precondition of the kernel on its offsets: at least one offset, the
first one not negative, non-decreasing, the last one at most `length`. -/
structure ValidOffsets (offsets : Nat → Int) (offsetslength length : Nat) : Prop where
  pos : 1 ≤ offsetslength
  nonneg : 0 ≤ offsets 0
  mono : ∀ i, i + 1 < offsetslength → offsets i ≤ offsets (i + 1)
  bound : offsets (offsetslength - 1) ≤ (length : Int)

/-- The indices of group `i`, in the order in which `srt` leaves them. -/
def group_sorted (srt : List Nat → List Nat) (offsets : Nat → Int) (i : Nat) : List Nat :=
  srt (List.range' (offsets i).toNat ((offsets (i + 1)).toNat - (offsets i).toNat))

/-- The part of `result` before group `k` once the groups before `k` are sorted. -/
def sorted_upto (srt : List Nat → List Nat) (offsets : Nat → Int) : Nat → List Nat
  | 0 => List.range (offsets 0).toNat
  | k + 1 => sorted_upto srt offsets k ++ group_sorted srt offsets k

/-- The comparator the kernel uses for the given direction. -/
def kernel_comp {T : Type} (E : ElemType T) (fromptr : Nat → T) (ascending : Bool) :
    Nat → Nat → Bool :=
  if ascending then asc_comp E fromptr else desc_comp E fromptr

/-- The library sort the kernel calls for the given flags. -/
def kernel_sort {T : Type} (S : StdSort) (E : ElemType T) (fromptr : Nat → T)
    (ascending stable : Bool) : List Nat → List Nat :=
  if stable then stable_sort (kernel_comp E fromptr ascending)
  else S (kernel_comp E fromptr ascending)

/-- The output of the kernel in closed form. -/
def argsort_out (srt : List Nat → List Nat) (offsets : Nat → Int) (n L : Nat) : List Nat :=
  sorted_upto srt offsets (n - 1)
    ++ List.range' (offsets (n - 1)).toNat (L - (offsets (n - 1)).toNat)

/-- The comparator of the kernel for the given direction, on values. -/
def kernel_order {T : Type} (E : ElemType T) (ascending : Bool) (l r : T) : Bool :=
  if ascending then awkward_ListOffsetArray_argsort_order_ascending E l r
  else awkward_ListOffsetArray_argsort_order_descending E l r

/-! ## Example data -/

/-- Values `[3, NaN, 1, 2, 2]`. -/
def ex_values : Nat → F64 := ptr_of F64.nan [.fin 3, .nan, .fin 1, .fin 2, .fin 2]

/-- Offsets `[0, 3, 5]`: the groups `[3, NaN, 1]` and `[2, 2]`. -/
def ex_offsets : Nat → Int := ptr_of 0 [0, 3, 5]

/-- Values `[3, 1, 2, 2, 0]` of type `int64_t`. -/
def ex_int_values : Nat → Int := ptr_of 0 [3, 1, 2, 2, 0]

/-- Values `[3, NaN, 1]`. -/
def ex7_values : Nat → F64 := ptr_of F64.nan [.fin 3, .nan, .fin 1]

/-- Offsets `[0, 3]`: one group. -/
def ex7_offsets : Nat → Int := ptr_of 0 [0, 3]

/-! ## Numeric values of the builders -/

instance : Inhabited F64 := ⟨F64.fin 0⟩

/-- A value of type `std::complex<double>`: real part, then imaginary part. -/
structure Complex128 where
  real : F64
  imag : F64
  deriving DecidableEq, Inhabited

/-! ## Growable buffers -/

/-- Modelled from the spec: `ArrayBuilderOptions`, whose header is not among
the sources: the initial capacity of a buffer and its growth factor. -/
structure ArrayBuilderOptions where
  initial : Nat
  resize : ℚ
  deriving DecidableEq

/-- Modelled from the spec: `GrowableBuffer<T>`, whose source is not among the
sources ("a reserved capacity, a logical length ≤ capacity, and a dense run of
T values `[0, length)`"). The allocation `ptr` is the list of its cells, so
that the reserved capacity is `ptr.length`; cells that were never written hold
`default`. -/
structure GrowableBuffer (T : Type) where
  options : ArrayBuilderOptions
  ptr : List T
  length : Nat
  deriving DecidableEq

namespace GrowableBuffer

/-- Modelled from the spec: `reserved()`, the reserved capacity. -/
def reserved {T : Type} (b : GrowableBuffer T) : Nat := b.ptr.length

/-- Modelled from the spec: the logical range `[0, length)` of the buffer, which
is what a snapshot of it contains. -/
def values {T : Type} (b : GrowableBuffer T) : List T := b.ptr.take b.length

/-- Modelled from the spec: `empty(options)`, a buffer of length zero with the
initial capacity of the options. -/
def empty {T : Type} [Inhabited T] (options : ArrayBuilderOptions) : GrowableBuffer T :=
  { options := options, ptr := List.replicate options.initial default, length := 0 }

/-- Modelled from the spec: `empty(options, reserved)`, a buffer of length zero
with the requested capacity. -/
def empty_reserved {T : Type} [Inhabited T] (options : ArrayBuilderOptions) (reserved : Nat) :
    GrowableBuffer T :=
  { options := options, ptr := List.replicate reserved default, length := 0 }

/-- Modelled from the spec: `set_length(newlength)`. -/
def set_length {T : Type} (b : GrowableBuffer T) (newlength : Nat) : GrowableBuffer T :=
  { b with length := newlength }

/-- Modelled from the spec: `clear()` "resets logical length to zero without
necessarily releasing capacity". -/
def clear {T : Type} (b : GrowableBuffer T) : GrowableBuffer T :=
  { b with length := 0 }

/-- Modelled from the spec: the capacity after a reallocation, "a larger
capacity (policy-configurable growth factor)". -/
def grown (options : ArrayBuilderOptions) (reserved : Nat) : Nat :=
  max (reserved + 1) ⌈(reserved : ℚ) * options.resize⌉₊

/-- Modelled from the spec: `append(value)`: "if length == capacity, reallocate
to a larger capacity and copy existing elements, preserving order", then store
the value at index `length` and increase the length by one. -/
def append {T : Type} [Inhabited T] (b : GrowableBuffer T) (datum : T) : GrowableBuffer T :=
  let ptr :=
    if b.length = b.ptr.length then
      b.ptr ++ List.replicate (grown b.options b.ptr.length - b.ptr.length) default
    else b.ptr
  { b with ptr := ptr.set b.length datum, length := b.length + 1 }

/-- The state in which `std::move(buffer_)` leaves the buffer it is applied to:
the storage has gone to the new owner ("the integer buffer is then
cleared/discarded"). -/
def moved_from {T : Type} (b : GrowableBuffer T) : GrowableBuffer T :=
  { b with ptr := [], length := 0 }

/-- A buffer is well formed when its logical length is at most its capacity. -/
def WF {T : Type} (b : GrowableBuffer T) : Prop := b.length ≤ b.ptr.length

end GrowableBuffer

/-- A read `raw[i]` through the raw pointer of an allocation: undefined outside
the allocation. -/
def raw_read {T : Type} (raw : List T) (i : Nat) : Option T := raw[i]?

/-- A write `raw[i] = v` through the raw pointer of an allocation: undefined
outside the allocation. -/
def raw_write {T : Type} (raw : List T) (i : Nat) (v : T) : Option (List T) :=
  if i < raw.length then some (raw.set i v) else none

/-! ## The builders -/

/-- Class `Int64Builder`: its options and its buffer. -/
structure Int64Builder where
  options : ArrayBuilderOptions
  buffer : GrowableBuffer Int
  deriving DecidableEq

/-- Modelled from the spec: class `Float64Builder`, whose source is not among
the sources: a leaf builder bound to one buffer of reals. -/
structure Float64Builder where
  options : ArrayBuilderOptions
  buffer : GrowableBuffer F64
  deriving DecidableEq

/-- Class `Complex128Builder`: its options and its buffer. -/
structure Complex128Builder where
  options : ArrayBuilderOptions
  buffer : GrowableBuffer Complex128
  deriving DecidableEq

/-- A call of the builder interface with its arguments. -/
inductive Call where
  | null
  | boolean (x : Bool)
  | integer (x : Int)
  | real (x : F64)
  | complex (x : Complex128)
  | datetime (x : Int) (unit : String)
  | timedelta (x : Int) (unit : String)
  | string (x : String) (length : Int) (encoding : String)
  | beginlist
  | endlist
  | begintuple (numfields : Int)
  | index (index : Int)
  | endtuple
  | beginrecord (name : String) (check : Bool)
  | field (key : String) (check : Bool)
  | endrecord
  deriving DecidableEq

/-- What a `BuilderPtr` that is not null points to. The numeric leaf builders
are the classes above. `OptionBuilder` and `UnionBuilder` are modelled from the
spec, their sources not being among the sources: an option builder is the
builder it wraps with, for each element, its position in that builder or `-1`
for a null; a union builder is its branches with, for each element, the tag of
its branch and its position in it, and it is recorded with the calls it has
received since it was created (how it distributes them over its branches is not
described). -/
inductive Builder where
  | int64 (b : Int64Builder)
  | float64 (b : Float64Builder)
  | complex128 (b : Complex128Builder)
  | option (options : ArrayBuilderOptions) (index : List Int) (content : Builder)
  | union (options : ArrayBuilderOptions) (tags : List Int) (index : List Int)
      (contents : List Builder) (calls : List Call)

/-- A `BuilderPtr`: `none` is `nullptr`. -/
abbrev BuilderPtr : Type := Option Builder

/-- The exceptions the builders throw. -/
inductive Exception where
  | invalid_argument (what : String)
  deriving DecidableEq

/-- The outcome of a call of a member function: the state in which it leaves
the object, and what it returns or throws. -/
structure Outcome (Self R : Type) where
  self : Self
  ret : Except Exception R

/-- Member `length()` of a builder. -/
def Builder.length : Builder → Int
  | .int64 b => (b.buffer.length : Int)
  | .float64 b => (b.buffer.length : Int)
  | .complex128 b => (b.buffer.length : Int)
  | .option _ index _ => (index.length : Int)
  | .union _ tags _ _ _ => (tags.length : Int)

/-- Modelled from the spec: `OptionBuilder::fromvalids(options, content)`, the
option builder around `content` "that remembers all prior appends were
non-null". -/
def OptionBuilder.fromvalids (options : ArrayBuilderOptions) (content : Builder) : Builder :=
  .option options ((List.range content.length.toNat).map Int.ofNat) content

/-- Modelled from the spec: `OptionBuilder::null()` "marks the new null"; on
another builder the call is not described and leaves it as it is. -/
def OptionBuilder.null : Builder → Builder
  | .option options index content => .option options (index ++ [-1]) content
  | b => b

/-- Modelled from the spec: `UnionBuilder::fromsingle(options, firstcontent)`,
the union builder in which "the prior builder's accumulated values" are "the
union's first tagged branch". -/
def UnionBuilder.fromsingle (options : ArrayBuilderOptions) (firstcontent : Builder) :
    Builder :=
  .union options (List.replicate firstcontent.length.toNat 0)
    ((List.range firstcontent.length.toNat).map Int.ofNat) [firstcontent] []

/-- Modelled from the spec: a call received by a union builder; on another
builder the call is not described and leaves it as it is. -/
def UnionBuilder.call (c : Call) : Builder → Builder
  | .union options tags index contents calls => .union options tags index contents (calls ++ [c])
  | b => b

/-! ### Conversions between leaf builders -/

/-- Modelled from the spec: `Float64Builder::fromint64(options, old)`, whose
source is not among the sources: a float64 builder "pre-seeded by
reinterpreting all prior integers as reals", in a new buffer of the capacity of
the old one. -/
def Float64Builder.fromint64 (options : ArrayBuilderOptions) (old : GrowableBuffer Int) :
    Float64Builder :=
  let buffer : GrowableBuffer F64 := GrowableBuffer.empty_reserved options old.reserved
  let newraw := (old.values.map int64_to_double) ++ buffer.ptr.drop old.length
  { options := options, buffer := ({ buffer with ptr := newraw }).set_length old.length }

/-- Modelled from the spec: `Float64Builder::real(x)`, "an append call matching
the builder's current kind appends in place and returns no replacement". -/
def Float64Builder.real (self : Float64Builder) (x : F64) :
    Outcome Float64Builder BuilderPtr :=
  { self := { self with buffer := self.buffer.append x }, ret := .ok none }

/-- The loop `for (size_t i = 0;  i < bound;  i++) newraw[i] = conv(oldraw[i])`
of the conversions of `Complex128Builder`. -/
def convert_loop {T : Type} (conv : T → Complex128) (oldraw : List T) (bound : Nat)
    (newraw : List Complex128) : Option (List Complex128) :=
  (List.range bound).foldlM
    (fun raw i => (raw_read oldraw i).bind (fun x => raw_write raw i (conv x))) newraw

/-- Static member `Complex128Builder::fromint64`. The loop runs to
`2*old.length()`. The final `old.clear()` acts on the parameter, which is
destroyed on return. -/
def Complex128Builder.fromint64 (options : ArrayBuilderOptions) (old : GrowableBuffer Int) :
    Option Complex128Builder :=
  let buffer : GrowableBuffer Complex128 := GrowableBuffer.empty_reserved options old.reserved
  let oldraw := old.ptr
  let newraw := buffer.ptr
  (convert_loop (fun x => { real := int64_to_double x, imag := F64.fin 0 }) oldraw
      (2 * old.length) newraw).map
    (fun newraw =>
      { options := options, buffer := ({ buffer with ptr := newraw }).set_length old.length })

/-- Static member `Complex128Builder::fromfloat64`. The loop runs to
`old.length()`. -/
def Complex128Builder.fromfloat64 (options : ArrayBuilderOptions) (old : GrowableBuffer F64) :
    Option Complex128Builder :=
  let buffer : GrowableBuffer Complex128 := GrowableBuffer.empty_reserved options old.reserved
  let oldraw := old.ptr
  let newraw := buffer.ptr
  (convert_loop (fun x => { real := x, imag := F64.fin 0 }) oldraw old.length newraw).map
    (fun newraw =>
      { options := options, buffer := ({ buffer with ptr := newraw }).set_length old.length })

/-! ### Class `Complex128Builder` -/

namespace Complex128Builder

/-- The macro `FILENAME(line)` of `Complex128Builder.cpp`, in terms of the macro
`FILENAME_FOR_EXCEPTIONS`, whose definition is not among the sources. -/
def FILENAME (FILENAME_FOR_EXCEPTIONS : String → Nat → String) (line : Nat) : String :=
  FILENAME_FOR_EXCEPTIONS "src/libawkward/builder/Complex128Builder.cpp" line

/-- Static member `fromempty`. -/
def fromempty (options : ArrayBuilderOptions) : Complex128Builder :=
  { options := options, buffer := GrowableBuffer.empty options }

/-- Member `length`. -/
def length (self : Complex128Builder) : Int := (self.buffer.length : Int)

/-- Member `clear`. -/
def clear (self : Complex128Builder) : Complex128Builder :=
  { self with buffer := self.buffer.clear }

/-- Member `active`. -/
def active (_self : Complex128Builder) : Bool := false

/-- Member `null`. -/
def null (self : Complex128Builder) : Outcome Complex128Builder BuilderPtr :=
  let out := OptionBuilder.fromvalids self.options (.complex128 self)
  let out := OptionBuilder.null out
  { self := self, ret := .ok (some out) }

/-- Member `boolean`. -/
def boolean (self : Complex128Builder) (x : Bool) : Outcome Complex128Builder BuilderPtr :=
  let out := UnionBuilder.fromsingle self.options (.complex128 self)
  let out := UnionBuilder.call (.boolean x) out
  { self := self, ret := .ok (some out) }

/-- Member `integer`. -/
def integer (self : Complex128Builder) (x : Int) : Outcome Complex128Builder BuilderPtr :=
  { self := { self with
      buffer := self.buffer.append { real := int64_to_double x, imag := F64.fin 0 } },
    ret := .ok none }

/-- Member `real`. -/
def real (self : Complex128Builder) (x : F64) : Outcome Complex128Builder BuilderPtr :=
  { self := { self with buffer := self.buffer.append { real := x, imag := F64.fin 0 } },
    ret := .ok none }

/-- Member `complex`. -/
def complex (self : Complex128Builder) (x : Complex128) :
    Outcome Complex128Builder BuilderPtr :=
  { self := { self with buffer := self.buffer.append x }, ret := .ok none }

/-- Member `datetime`. -/
def datetime (self : Complex128Builder) (x : Int) (unit : String) :
    Outcome Complex128Builder BuilderPtr :=
  let out := UnionBuilder.fromsingle self.options (.complex128 self)
  let out := UnionBuilder.call (.datetime x unit) out
  { self := self, ret := .ok (some out) }

/-- Member `timedelta`. -/
def timedelta (self : Complex128Builder) (x : Int) (unit : String) :
    Outcome Complex128Builder BuilderPtr :=
  let out := UnionBuilder.fromsingle self.options (.complex128 self)
  let out := UnionBuilder.call (.timedelta x unit) out
  { self := self, ret := .ok (some out) }

/-- Member `string`. -/
def string (self : Complex128Builder) (x : String) (length : Int) (encoding : String) :
    Outcome Complex128Builder BuilderPtr :=
  let out := UnionBuilder.fromsingle self.options (.complex128 self)
  let out := UnionBuilder.call (.string x length encoding) out
  { self := self, ret := .ok (some out) }

/-- Member `beginlist`. -/
def beginlist (self : Complex128Builder) : Outcome Complex128Builder BuilderPtr :=
  let out := UnionBuilder.fromsingle self.options (.complex128 self)
  let out := UnionBuilder.call .beginlist out
  { self := self, ret := .ok (some out) }

/-- Member `endlist`. -/
def endlist (F : String → Nat → String) (self : Complex128Builder) :
    Outcome Complex128Builder BuilderPtr :=
  { self := self,
    ret := .error (.invalid_argument
      ("called 'end_list' without 'begin_list' at the same level before it"
        ++ FILENAME F 151)) }

/-- Member `begintuple`. -/
def begintuple (self : Complex128Builder) (numfields : Int) :
    Outcome Complex128Builder BuilderPtr :=
  let out := UnionBuilder.fromsingle self.options (.complex128 self)
  let out := UnionBuilder.call (.begintuple numfields) out
  { self := self, ret := .ok (some out) }

/-- Member `index`. -/
def index (F : String → Nat → String) (self : Complex128Builder) (_index : Int) :
    Outcome Complex128Builder BuilderPtr :=
  { self := self,
    ret := .error (.invalid_argument
      ("called 'index' without 'begin_tuple' at the same level before it"
        ++ FILENAME F 165)) }

/-- Member `endtuple`. -/
def endtuple (F : String → Nat → String) (self : Complex128Builder) :
    Outcome Complex128Builder BuilderPtr :=
  { self := self,
    ret := .error (.invalid_argument
      ("called 'end_tuple' without 'begin_tuple' at the same level before it"
        ++ FILENAME F 172)) }

/-- Member `beginrecord`. -/
def beginrecord (self : Complex128Builder) (name : String) (check : Bool) :
    Outcome Complex128Builder BuilderPtr :=
  let out := UnionBuilder.fromsingle self.options (.complex128 self)
  let out := UnionBuilder.call (.beginrecord name check) out
  { self := self, ret := .ok (some out) }

/-- Member `field`, of return type `void`. -/
def field (F : String → Nat → String) (self : Complex128Builder) (_key : String)
    (_check : Bool) : Outcome Complex128Builder Unit :=
  { self := self,
    ret := .error (.invalid_argument
      ("called 'field' without 'begin_record' at the same level before it"
        ++ FILENAME F 186)) }

/-- Member `endrecord`: `return shared_from_this();`. -/
def endrecord (self : Complex128Builder) : Outcome Complex128Builder BuilderPtr :=
  { self := self, ret := .ok (some (.complex128 self)) }

end Complex128Builder

/-! ### Class `Int64Builder` -/

namespace Int64Builder

/-- The macro `FILENAME(line)` of `Int64Builder.cpp`, in terms of the macro
`FILENAME_FOR_EXCEPTIONS`, whose definition is not among the sources. -/
def FILENAME (FILENAME_FOR_EXCEPTIONS : String → Nat → String) (line : Nat) : String :=
  FILENAME_FOR_EXCEPTIONS "src/libawkward/builder/Int64Builder.cpp" line

/-- Static member `fromempty`. -/
def fromempty (options : ArrayBuilderOptions) : Int64Builder :=
  { options := options, buffer := GrowableBuffer.empty options }

/-- Member `length`. -/
def length (self : Int64Builder) : Int := (self.buffer.length : Int)

/-- Member `clear`. -/
def clear (self : Int64Builder) : Int64Builder :=
  { self with buffer := self.buffer.clear }

/-- Member `active`. -/
def active (_self : Int64Builder) : Bool := false

/-- Member `null`. -/
def null (self : Int64Builder) : Outcome Int64Builder BuilderPtr :=
  let out := OptionBuilder.fromvalids self.options (.int64 self)
  let out := OptionBuilder.null out
  { self := self, ret := .ok (some out) }

/-- Member `boolean`. -/
def boolean (self : Int64Builder) (x : Bool) : Outcome Int64Builder BuilderPtr :=
  let out := UnionBuilder.fromsingle self.options (.int64 self)
  let out := UnionBuilder.call (.boolean x) out
  { self := self, ret := .ok (some out) }

/-- Member `integer`. -/
def integer (self : Int64Builder) (x : Int) : Outcome Int64Builder BuilderPtr :=
  { self := { self with buffer := self.buffer.append x }, ret := .ok none }

/-- Member `real`. The buffer is moved into `Float64Builder::fromint64`. -/
def real (self : Int64Builder) (x : F64) : Outcome Int64Builder BuilderPtr :=
  let out := Float64Builder.fromint64 self.options self.buffer
  let out := (out.real x).self
  { self := { self with buffer := self.buffer.moved_from }, ret := .ok (some (.float64 out)) }

/-- Member `complex`. The buffer is moved into `Complex128Builder::fromint64`,
whose raw accesses make the call undefined when they leave the allocations. -/
def complex (self : Int64Builder) (x : Complex128) :
    Option (Outcome Int64Builder BuilderPtr) :=
  (Complex128Builder.fromint64 self.options self.buffer).map (fun out =>
    let out := (out.complex x).self
    { self := { self with buffer := self.buffer.moved_from },
      ret := .ok (some (.complex128 out)) })

/-- Member `datetime`. -/
def datetime (self : Int64Builder) (x : Int) (unit : String) :
    Outcome Int64Builder BuilderPtr :=
  let out := UnionBuilder.fromsingle self.options (.int64 self)
  let out := UnionBuilder.call (.datetime x unit) out
  { self := self, ret := .ok (some out) }

/-- Member `timedelta`. -/
def timedelta (self : Int64Builder) (x : Int) (unit : String) :
    Outcome Int64Builder BuilderPtr :=
  let out := UnionBuilder.fromsingle self.options (.int64 self)
  let out := UnionBuilder.call (.timedelta x unit) out
  { self := self, ret := .ok (some out) }

/-- Member `string`. -/
def string (self : Int64Builder) (x : String) (length : Int) (encoding : String) :
    Outcome Int64Builder BuilderPtr :=
  let out := UnionBuilder.fromsingle self.options (.int64 self)
  let out := UnionBuilder.call (.string x length encoding) out
  { self := self, ret := .ok (some out) }

/-- Member `beginlist`. -/
def beginlist (self : Int64Builder) : Outcome Int64Builder BuilderPtr :=
  let out := UnionBuilder.fromsingle self.options (.int64 self)
  let out := UnionBuilder.call .beginlist out
  { self := self, ret := .ok (some out) }

/-- Member `endlist`. -/
def endlist (F : String → Nat → String) (self : Int64Builder) :
    Outcome Int64Builder BuilderPtr :=
  { self := self,
    ret := .error (.invalid_argument
      ("called 'end_list' without 'begin_list' at the same level before it"
        ++ FILENAME F 132)) }

/-- Member `begintuple`. -/
def begintuple (self : Int64Builder) (numfields : Int) : Outcome Int64Builder BuilderPtr :=
  let out := UnionBuilder.fromsingle self.options (.int64 self)
  let out := UnionBuilder.call (.begintuple numfields) out
  { self := self, ret := .ok (some out) }

/-- Member `index`. -/
def index (F : String → Nat → String) (self : Int64Builder) (_index : Int) :
    Outcome Int64Builder BuilderPtr :=
  { self := self,
    ret := .error (.invalid_argument
      ("called 'index' without 'begin_tuple' at the same level before it"
        ++ FILENAME F 146)) }

/-- Member `endtuple`. -/
def endtuple (F : String → Nat → String) (self : Int64Builder) :
    Outcome Int64Builder BuilderPtr :=
  { self := self,
    ret := .error (.invalid_argument
      ("called 'end_tuple' without 'begin_tuple' at the same level before it"
        ++ FILENAME F 153)) }

/-- Member `beginrecord`. -/
def beginrecord (self : Int64Builder) (name : String) (check : Bool) :
    Outcome Int64Builder BuilderPtr :=
  let out := UnionBuilder.fromsingle self.options (.int64 self)
  let out := UnionBuilder.call (.beginrecord name check) out
  { self := self, ret := .ok (some out) }

/-- Member `field`, of return type `void`. -/
def field (F : String → Nat → String) (self : Int64Builder) (_key : String)
    (_check : Bool) : Outcome Int64Builder Unit :=
  { self := self,
    ret := .error (.invalid_argument
      ("called 'field' without 'begin_record' at the same level before it"
        ++ FILENAME F 167)) }

/-- Member `endrecord`. -/
def endrecord (F : String → Nat → String) (self : Int64Builder) :
    Outcome Int64Builder BuilderPtr :=
  { self := self,
    ret := .error (.invalid_argument
      ("called 'end_record' without 'begin_record' at the same level before it"
        ++ FILENAME F 174)) }

end Int64Builder

/-- A sequence of `integer` calls, each on the state the previous one left. -/
def Int64Builder.integers (self : Int64Builder) (xs : List Int) : Int64Builder :=
  xs.foldl (fun b x => (b.integer x).self) self

/-- The embedding of an integer as a complex number with zero imaginary part. -/
def complex_of_int64 (x : Int) : Complex128 :=
  { real := int64_to_double x, imag := F64.fin 0 }

/-- The embedding of a real as a complex number with zero imaginary part. -/
def complex_of_float64 (x : F64) : Complex128 :=
  { real := x, imag := F64.fin 0 }

/-- A float64 buffer holding `[1.5, 2]` with capacity 3. -/
def ex_float_buffer : GrowableBuffer F64 :=
  { options := { initial := 3, resize := 2 }, ptr := [F64.fin (3 / 2), F64.fin 2, F64.fin 0],
    length := 2 }

/-- A complex builder holding `[(1, 2)]` in a buffer of capacity 1. -/
def ex_complex_builder : Complex128Builder :=
  ((Complex128Builder.fromempty { initial := 1, resize := 3 / 2 }).complex
    { real := F64.fin 1, imag := F64.fin 2 }).self

/-- The message of the exception with which a call ended, if it threw. -/
def Outcome.what {Self R : Type} (o : Outcome Self R) : Option String :=
  match o.ret with
  | .error (.invalid_argument w) => some w
  | .ok _ => none

/-- The text `t` occurs in `s`. -/
def occurs_in (t s : String) : Prop := ∃ a b : String, s = a ++ t ++ b

/-- The call ended with an exception whose message names both `op` and
`opener`. -/
def names_pair {Self R : Type} (o : Outcome Self R) (op opener : String) : Prop :=
  ∃ w, o.what = some w ∧ occurs_in op w ∧ occurs_in opener w

/-! ## Finalization: `to_buffers` -/

/-- The value of an `int64_t` operation whose exact result is `x`: `x` reduced
to 64 bits in two's complement. Where `x` is not an `int64_t` value the signed
operation overflows, which the standard leaves undefined; the result modelled
is the one of the two's complement targets of the library, where it wraps. -/
def int64_wrap (x : Int) : Int := (x + 2 ^ 63) % 2 ^ 64 - 2 ^ 63

/-- Product of two `size_t` values (64 bits, wrapping). -/
def size_t_mul (a b : Nat) : Nat := (a * b) % 2 ^ 64

/-- The conversion `(int64_t)x` of a `size_t` value. -/
def size_t_to_int64 (x : Nat) : Int :=
  if x % 2 ^ 64 < 2 ^ 63 then ((x % 2 ^ 64 : Nat) : Int) else ((x % 2 ^ 64 : Nat) : Int) - 2 ^ 64

/-- The elements of a buffer handed to a container. -/
inductive BufferData where
  | int64 (xs : List Int)
  | complex128 (xs : List Complex128)
  deriving DecidableEq

/-- One `copy_buffer(name, source, num_bytes)` received by a container. -/
structure CopiedBuffer where
  name : String
  data : BufferData
  num_bytes : Int
  deriving DecidableEq

/-- Modelled from the spec: `BuffersContainer`, whose definition is not among
the sources, "a byte-buffer container" that receives named buffers: the
buffers it has received, in order. -/
abbrev BuffersContainer : Type := List CopiedBuffer

/-- Modelled from the spec: `copy_buffer(name, source, num_bytes)`. -/
def BuffersContainer.copy_buffer (container : BuffersContainer) (name : String)
    (data : BufferData) (num_bytes : Int) : BuffersContainer :=
  container ++ [{ name := name, data := data, num_bytes := num_bytes }]

/-- What a call of `to_buffers` produces: the container and the counter
`form_key_id`, both received by reference, as it leaves them, and the string it
returns. -/
structure ToBuffers where
  container : BuffersContainer
  form_key_id : Int
  form : String

/-- Member `Int64Builder::to_buffers`, a `const` member. The counter
`form_key_id` is an `int64_t` received by reference and incremented by
`form_key_id++`. The bytes copied are the first `num_bytes` bytes of the
allocation, 8 for each element. -/
def Int64Builder.to_buffers (self : Int64Builder) (container : BuffersContainer)
    (form_key_id : Int) : Outcome Int64Builder ToBuffers :=
  let form_key := "node" ++ toString form_key_id
  let form_key_id := int64_wrap (form_key_id + 1)
  let num_bytes := size_t_to_int64 (size_t_mul self.buffer.length 8)
  { self := self,
    ret := .ok
      { container := container.copy_buffer (form_key ++ "-data")
          (.int64 (self.buffer.ptr.take (num_bytes.toNat / 8))) num_bytes,
        form_key_id := form_key_id,
        form := "\x7b\"class\": \"NumpyArray\", \"primitive\": \"int64\", \"form_key\": \""
          ++ form_key ++ "\"\x7d" } }

/-- Member `Complex128Builder::to_buffers`, a `const` member. The counter
`form_key_id` is an `int64_t` received by reference and incremented by
`form_key_id++`; the byte count is doubled in `int64_t`. The bytes copied are
the first `num_bytes` bytes of the allocation, 16 for each element. -/
def Complex128Builder.to_buffers (self : Complex128Builder) (container : BuffersContainer)
    (form_key_id : Int) : Outcome Complex128Builder ToBuffers :=
  let form_key := "node" ++ toString form_key_id
  let form_key_id := int64_wrap (form_key_id + 1)
  let num_bytes := int64_wrap (size_t_to_int64 (size_t_mul self.buffer.length 8) * 2)
  { self := self,
    ret := .ok
      { container := container.copy_buffer (form_key ++ "-data")
          (.complex128 (self.buffer.ptr.take (num_bytes.toNat / 16))) num_bytes,
        form_key_id := form_key_id,
        form := "\x7b\"class\": \"NumpyArray\", \"primitive\": \"complex128\", \"form_key\": \""
          ++ form_key ++ "\"\x7d" } }

/-- The union builder that a structurally different call `c` on a leaf builder
`first` holding `n` values creates: all `n` prior values in branch 0, and the
call forwarded. -/
def promoted_union (options : ArrayBuilderOptions) (first : Builder) (n : Nat) (c : Call) :
    Builder :=
  .union options (List.replicate n 0) ((List.range n).map Int.ofNat) [first] [c]

/-! ## Sequences of `to_buffers` calls -/

/-- A builder of one of the two leaf classes of the sources. -/
inductive LeafBuilder where
  | int64 (b : Int64Builder)
  | complex128 (b : Complex128Builder)

/-- The virtual call `to_buffers` on a leaf builder. -/
def LeafBuilder.to_buffers (self : LeafBuilder) (container : BuffersContainer)
    (form_key_id : Int) : Except Exception ToBuffers :=
  match self with
  | .int64 b => (b.to_buffers container form_key_id).ret
  | .complex128 b => (b.to_buffers container form_key_id).ret

/-- The name of the primitive type in the schema fragment of a leaf builder. -/
def LeafBuilder.primitive : LeafBuilder → String
  | .int64 _ => "int64"
  | .complex128 _ => "complex128"

/-- The schema fragment of a leaf with the given primitive and form key. -/
def leaf_form (primitive form_key : String) : String :=
  "\x7b\"class\": \"NumpyArray\", \"primitive\": \"" ++ primitive ++ "\", \"form_key\": \""
    ++ form_key ++ "\"\x7d"

/-- A caller that runs `to_buffers` on each builder of a sequence in turn, with
one container and one counter shared by all the calls; the result is the
container, the counter and the schema fragments returned, in call order. -/
def to_buffers_seq : List LeafBuilder → BuffersContainer → Int →
    Except Exception (BuffersContainer × Int × List String)
  | [], container, form_key_id => .ok (container, form_key_id, [])
  | b :: bs, container, form_key_id =>
    match b.to_buffers container form_key_id with
    | .error e => .error e
    | .ok r =>
      match to_buffers_seq bs r.container r.form_key_id with
      | .error e => .error e
      | .ok (c, k, forms) => .ok (c, k, r.form :: forms)

/-- The characters of a decimal numeral read back as a number. -/
def decimal_value (cs : List Char) : Nat :=
  cs.foldl (fun a c => a * 10 + (c.toNat - 48)) 0

/-! ## Offset-delimited lists -/

/-- Modelled from the spec: a fixed-stride array, the result of `to_regular`:
its content, the common length `size` of its sublists, and its length. The
class `RegularArray` is not among the sources. -/
structure RegularArray (α : Type) where
  content : List α
  size : Int
  length : Int

/-- Modelled from the spec: class `ListOffsetArrayOf<T>`, of which only the
header is among the sources: "an `offsets` sequence of length n+1" and "a
`content` child node", here a flat list of values, with the string-keyed
parameters and the `represents_regular` flag. `is64` tells whether `T` is
`int64_t`. -/
structure ListOffsetArrayOf (α : Type) where
  parameters : List (String × String)
  offsets : List Int
  content : List α
  represents_regular : Bool
  is64 : Bool

namespace ListOffsetArrayOf

/-- Modelled from the spec: the constructor, which "does not copy `content`; it
only validates `offsets.length ≥ 1`" (header: the offsets "must always have at
least one element"). -/
def create {α : Type} (parameters : List (String × String)) (offsets : List Int)
    (content : List α) (represents_regular : Bool) (is64 : Bool) :
    Except Exception (ListOffsetArrayOf α) :=
  if offsets.length = 0 then
    .error (.invalid_argument "ListOffsetArray offsets length must be at least 1")
  else
    .ok { parameters := parameters, offsets := offsets, content := content,
          represents_regular := represents_regular, is64 := is64 }

/-- Modelled from the spec: `length()`, "equal to `len(offsets) - 1`". -/
def length {α : Type} (self : ListOffsetArrayOf α) : Int :=
  (self.offsets.length : Int) - 1

/-- Modelled from the spec: `starts`, all but the last element of the offsets. -/
def starts {α : Type} (self : ListOffsetArrayOf α) : List Int := self.offsets.dropLast

/-- Modelled from the spec: `stops`, all but the first element of the offsets. -/
def stops {α : Type} (self : ListOffsetArrayOf α) : List Int := self.offsets.tail

/-- The lengths `offsets[i+1] - offsets[i]` of the sublists. -/
def counts (offsets : List Int) : List Int :=
  List.zipWith (fun start stop => stop - start) offsets.dropLast offsets.tail

/-- The validity of an instance: at least one offset, the first one not
negative, non-decreasing, the last one within the content. -/
structure Valid {α : Type} (a : ListOffsetArrayOf α) : Prop where
  nonempty : a.offsets ≠ []
  nonneg : ∀ o ∈ a.offsets.head?, 0 ≤ o
  mono : a.offsets.Chain' (fun x y => x ≤ y)
  bound : ∀ o ∈ a.offsets.getLast?, o ≤ (a.content.length : Int)

/-- What `compact_offsets64` returns: the 64-bit offsets, and whether they are a
new buffer or the existing one. -/
structure CompactOffsets where
  offsets : List Int
  fresh : Bool
  deriving DecidableEq

/-- Modelled from the spec: `compact_offsets64(start_at_zero)` "returns an
offsets sequence where every unreachable element is excluded and, if
`start_at_zero`, `offsets[0] == 0`; if the existing offsets already satisfy the
request, no new buffer is allocated" (header: "if the offsets of this array
satisfies the constraint, it is not copied; otherwise, a new Index64 is
returned"). -/
def compact_offsets64 {α : Type} (self : ListOffsetArrayOf α) (start_at_zero : Bool) :
    CompactOffsets :=
  let first := self.offsets.headD 0
  if self.is64 && (!start_at_zero || first == 0) then
    { offsets := self.offsets, fresh := false }
  else if start_at_zero then
    { offsets := self.offsets.map (fun o => o - first), fresh := true }
  else
    { offsets := self.offsets, fresh := true }

/-- Modelled from the spec: `toRegularArray` "converts to a fixed-stride
representation if and only if every sublist length is identical; otherwise
fails with a shape error". The sublist lengths are compared with the first
one; the content of the result is the reachable part of the content. -/
def toRegularArray {α : Type} (self : ListOffsetArrayOf α) :
    Except Exception (RegularArray α) :=
  let start := (self.offsets.headD 0).toNat
  let stop := (self.offsets.getLastD 0).toNat
  let content := (self.content.drop start).take (stop - start)
  match counts self.offsets with
  | [] => .ok { content := content, size := 0, length := self.length }
  | size :: rest =>
    if rest.all (fun c => c == size) then
      .ok { content := content, size := size, length := self.length }
    else
      .error (.invalid_argument
        "cannot convert to RegularArray because subarray lengths are not regular")

end ListOffsetArrayOf

/-! ## Class `IndexedOptionArrayBuilder` -/

/-- The members of the content of a form builder (`FormBuilderPtr<T, I>`) that
the constructor calls, with what they return. The class is not among the
sources. -/
structure FormBuilder where
  vm_func_type : String
  vm_output : String
  vm_func : String
  vm_func_name : String
  vm_from_stack : String
  vm_error : String

/-- Class `IndexedOptionArrayBuilder<T, I>`: its data members. -/
structure IndexedOptionArrayBuilder where
  content_ : FormBuilder
  parameters_ : List (String × String)
  is_categorical_ : Bool
  form_index_ : String
  vm_output_data_ : String
  vm_func_name_ : String
  vm_func_type_ : String
  vm_output_ : String
  vm_func_ : String
  vm_data_from_stack_ : String
  vm_error_ : String

namespace IndexedOptionArrayBuilder

/-- The macro `FILENAME(line)` of `IndexedOptionArrayBuilder.cpp`. -/
def FILENAME (FILENAME_FOR_EXCEPTIONS : String → Nat → String) (line : Nat) : String :=
  FILENAME_FOR_EXCEPTIONS "src/libawkward/layoutbuilder/IndexedOptionArrayBuilder.cpp" line

/-- Member `classname`. -/
def classname : String := "IndexedOptionArrayBuilder"

/-- Member `vm_output_data`. -/
def vm_output_data (self : IndexedOptionArrayBuilder) : String := self.vm_output_data_

/-- Member `vm_func_name`. -/
def vm_func_name (self : IndexedOptionArrayBuilder) : String := self.vm_func_name_

/-- Member `validate`. -/
def validate (F : String → Nat → String) (self : IndexedOptionArrayBuilder) :
    Except Exception Unit :=
  if self.is_categorical_ then
    .error (.invalid_argument
      ("categorical form of a " ++ classname ++ " is not supported yet " ++ FILENAME F 70))
  else .ok ()

/-- The constructor. `state_null` is the value
`static_cast<utype>(state::null)`, whose definition is not among the sources.
An exception thrown by `validate` leaves no object. -/
def create (F : String → Nat → String) (state_null : Nat) (content : FormBuilder)
    (parameters : List (String × String)) (form_key form_index : String)
    (is_categorical : Bool) (attr partition : String) :
    Except Exception IndexedOptionArrayBuilder :=
  let vm_output_data_ := "part" ++ partition ++ "-" ++ form_key ++ "-" ++ attr
  let vm_func_name_ := form_key ++ "-" ++ attr
  let vm_func_type_ := content.vm_func_type
  let vm_output_ := "output " ++ vm_output_data_ ++ " " ++ form_index ++ " "
    ++ content.vm_output
  let vm_func_ := "" ++ content.vm_func
    ++ ": " ++ vm_func_name_
    ++ " dup " ++ toString state_null
    ++ " = if "
    ++ "drop "
    ++ "variable null    -1 null ! "
    ++ "null @ "
    ++ vm_output_data_ ++ " <- stack "
    ++ "exit "
    ++ "else "
    ++ "variable index    1 index +! "
    ++ "index @ 1- "
    ++ vm_output_data_ ++ " <- stack "
    ++ content.vm_func_name
    ++ " then "
    ++ "; "
  let vm_data_from_stack_ := content.vm_from_stack ++ "0 " ++ vm_output_data_ ++ " <- stack "
  let vm_error_ := content.vm_error
  let self : IndexedOptionArrayBuilder :=
    { content_ := content, parameters_ := parameters, is_categorical_ := is_categorical,
      form_index_ := form_index, vm_output_data_ := vm_output_data_,
      vm_func_name_ := vm_func_name_, vm_func_type_ := vm_func_type_,
      vm_output_ := vm_output_, vm_func_ := vm_func_,
      vm_data_from_stack_ := vm_data_from_stack_, vm_error_ := vm_error_ }
  match validate F self with
  | .error e => .error e
  | .ok _ => .ok self

end IndexedOptionArrayBuilder

/-! ## Example of an offset-delimited list -/

/-- Offsets `[3, 5, 5, 8]` over a content of eight elements. -/
def ex_list_array : ListOffsetArrayOf Nat :=
  { parameters := [], offsets := [3, 5, 5, 8], content := [10, 11, 12, 13, 14, 15, 16, 17],
    represents_regular := false, is64 := true }

/-! ## Names and schema fragments of a sequence of calls -/

/-- The buffer name that goes with the counter value `k`. -/
def node_data_name (k : Nat) : String := "node" ++ toString k ++ "-data"

/-- The buffer names of `n` calls from the counter value `k` on. -/
def seq_names : Nat → Nat → List String
  | _, 0 => []
  | k, n + 1 => node_data_name k :: seq_names (k + 1) n

/-- The schema fragments of the calls on `bs` from the counter value `k` on. -/
def seq_forms : List LeafBuilder → Nat → List String
  | [], _ => []
  | b :: bs, k => leaf_form b.primitive ("node" ++ toString k) :: seq_forms bs (k + 1)

/-! # Lemmas and statements -/

/-! ## Laws of the element types -/

theorem float64Elem_lawful : float64Elem.Lawful where
  gt_eq := fun _ _ => rfl
  nan_left := by
    intro a b h
    cases a <;> cases b <;> simp_all [float64Elem, F64.isnan, F64.lt]
  nan_right := by
    intro a b h
    cases a <;> cases b <;> simp_all [float64Elem, F64.isnan, F64.lt]
  irrefl := by
    intro a
    cases a <;> simp [float64Elem, F64.lt]
  trans := by
    intro a b c h1 h2
    cases a <;> cases b <;> cases c <;> simp_all [float64Elem, F64.lt]
    exact lt_trans h1 h2
  cotrans := by
    intro a b c hb h
    cases a <;> cases b <;> cases c <;> simp_all [float64Elem, F64.lt, F64.isnan]
    rename_i x y z
    by_cases hxy : x < y
    · exact Or.inl hxy
    · exact Or.inr (lt_of_le_of_lt (not_lt.mp hxy) h)

/-- The conversion of an integer to `double` is never NaN. -/
theorem isnan_int64_to_double (x : Int) : (int64_to_double x).isnan = false := by
  unfold int64_to_double
  simp only
  split <;> rfl

theorem int64Elem_lawful : int64Elem.Lawful where
  gt_eq := fun _ _ => rfl
  nan_left := by intro a b h; simp [int64Elem, isnan_int64_to_double] at h
  nan_right := by intro a b h; simp [int64Elem, isnan_int64_to_double] at h
  irrefl := by intro a; simp [int64Elem]
  trans := by
    intro a b c h1 h2
    simp only [int64Elem, decide_eq_true_eq] at *
    omega
  cotrans := by
    intro a b c _ h
    simp only [int64Elem, decide_eq_true_eq] at *
    omega

theorem order_ascending_irrefl {T : Type} {E : ElemType T} (hE : E.Lawful) (a : T) :
    awkward_ListOffsetArray_argsort_order_ascending E a a = false := by
  unfold awkward_ListOffsetArray_argsort_order_ascending
  cases h : E.isnan a <;> simp [hE.irrefl]

theorem order_ascending_trans {T : Type} {E : ElemType T} (hE : E.Lawful) (a b c : T)
    (h1 : awkward_ListOffsetArray_argsort_order_ascending E a b = true)
    (h2 : awkward_ListOffsetArray_argsort_order_ascending E b c = true) :
    awkward_ListOffsetArray_argsort_order_ascending E a c = true := by
  unfold awkward_ListOffsetArray_argsort_order_ascending at *
  cases ha : E.isnan a <;> cases hb : E.isnan b <;> cases hc : E.isnan c <;>
    simp_all
  exact hE.trans a b c h1 h2

theorem order_ascending_cotrans {T : Type} {E : ElemType T} (hE : E.Lawful) (a b c : T)
    (h : awkward_ListOffsetArray_argsort_order_ascending E a c = true) :
    awkward_ListOffsetArray_argsort_order_ascending E a b = true ∨
      awkward_ListOffsetArray_argsort_order_ascending E b c = true := by
  unfold awkward_ListOffsetArray_argsort_order_ascending at *
  cases ha : E.isnan a <;> cases hb : E.isnan b <;> cases hc : E.isnan c <;>
    simp_all
  exact hE.cotrans a b c hb h

theorem ElemType.Lawful.swap {T : Type} {E : ElemType T} (hE : E.Lawful) :
    E.swap.Lawful where
  gt_eq := by intro a b; simp [ElemType.swap, hE.gt_eq]
  nan_left := by intro a b h; simpa [ElemType.swap, hE.gt_eq] using hE.nan_right b a h
  nan_right := by intro a b h; simpa [ElemType.swap, hE.gt_eq] using hE.nan_left b a h
  irrefl := by intro a; simpa [ElemType.swap, hE.gt_eq] using hE.irrefl a
  trans := by
    intro a b c h1 h2
    simp only [ElemType.swap, hE.gt_eq] at *
    exact hE.trans c b a h2 h1
  cotrans := by
    intro a b c hb h
    simp only [ElemType.swap, hE.gt_eq] at *
    exact (hE.cotrans c b a hb h).symm

theorem order_descending_eq {T : Type} (E : ElemType T) (l r : T) :
    awkward_ListOffsetArray_argsort_order_descending E l r =
      awkward_ListOffsetArray_argsort_order_ascending E.swap l r := rfl

theorem strictWeakOrder_of_cotrans {comp : Nat → Nat → Bool}
    (hirr : ∀ a, comp a a = false)
    (htr : ∀ a b c, comp a b = true → comp b c = true → comp a c = true)
    (hco : ∀ a b c, comp a c = true → comp a b = true ∨ comp b c = true) :
    StrictWeakOrder comp where
  irrefl := hirr
  trans := htr
  incomp_trans := by
    intro a b c h1 h2 h3 h4
    constructor
    · by_contra h
      rcases hco a b c (by simpa using h) with h' | h' <;> simp_all
    · by_contra h
      rcases hco c b a (by simpa using h) with h' | h' <;> simp_all

theorem asc_comp_swo {T : Type} {E : ElemType T} (hE : E.Lawful) (fromptr : Nat → T) :
    StrictWeakOrder (asc_comp E fromptr) :=
  strictWeakOrder_of_cotrans
    (fun a => order_ascending_irrefl hE (fromptr a))
    (fun a b c => order_ascending_trans hE (fromptr a) (fromptr b) (fromptr c))
    (fun a b c => order_ascending_cotrans hE (fromptr a) (fromptr b) (fromptr c))

theorem desc_comp_swo {T : Type} {E : ElemType T} (hE : E.Lawful) (fromptr : Nat → T) :
    StrictWeakOrder (desc_comp E fromptr) :=
  asc_comp_swo hE.swap fromptr

/-- In a strict weak ordering, "does not have to come after" is transitive. -/
theorem StrictWeakOrder.not_comp_trans {comp : Nat → Nat → Bool} (h : StrictWeakOrder comp)
    {a b c : Nat} (hab : comp b a = false) (hbc : comp c b = false) : comp c a = false := by
  by_contra hca
  have hca : comp c a = true := by simpa using hca
  by_cases h1 : comp b c = true
  · have := h.trans b c a h1 hca
    simp_all
  · by_cases h2 : comp a b = true
    · have := h.trans c a b hca h2
      simp_all
    · have := (h.incomp_trans a b c (by simpa using h2) hab (by simpa using h1) hbc).2
      simp_all

theorem StrictWeakOrder.asymm {comp : Nat → Nat → Bool} (h : StrictWeakOrder comp)
    {a b : Nat} (hab : comp a b = true) : comp b a = false := by
  by_contra hba
  have := h.trans a b a hab (by simpa using hba)
  simp [h.irrefl] at this

/-! ## The stable sort -/

theorem sorted_insert_perm (comp : Nat → Nat → Bool) (x : Nat) (l : List Nat) :
    (sorted_insert comp x l).Perm (x :: l) := by
  induction l with
  | nil => simp [sorted_insert]
  | cons y ys ih =>
    unfold sorted_insert
    split
    · exact List.Perm.refl _
    · exact (ih.cons y).trans (List.Perm.swap x y ys)

theorem stable_sort_perm (comp : Nat → Nat → Bool) (l : List Nat) :
    (stable_sort comp l).Perm l := by
  induction l with
  | nil => simp [stable_sort]
  | cons x xs ih =>
    unfold stable_sort
    exact (sorted_insert_perm comp x _).trans (ih.cons x)

theorem sorted_insert_sorted {comp : Nat → Nat → Bool} (h : StrictWeakOrder comp) (x : Nat)
    (l : List Nat) (hl : l.Pairwise (fun a b => comp b a = false)) :
    (sorted_insert comp x l).Pairwise (fun a b => comp b a = false) := by
  induction l with
  | nil => simp [sorted_insert]
  | cons y ys ih =>
    have hy := List.pairwise_cons.mp hl
    unfold sorted_insert
    split
    · rename_i hyx
      refine List.pairwise_cons.mpr ⟨?_, hl⟩
      intro b hb
      rcases List.mem_cons.mp hb with rfl | hb
      · exact hyx
      · exact h.not_comp_trans hyx (hy.1 b hb)
    · rename_i hyx
      have hyx : comp y x = true := by simpa using hyx
      refine List.pairwise_cons.mpr ⟨?_, ih hy.2⟩
      intro b hb
      rcases List.mem_cons.mp ((sorted_insert_perm comp x ys).mem_iff.mp hb) with rfl | hb
      · exact h.asymm hyx
      · exact hy.1 b hb

theorem stable_sort_sorted {comp : Nat → Nat → Bool} (h : StrictWeakOrder comp)
    (l : List Nat) : (stable_sort comp l).Pairwise (fun a b => comp b a = false) := by
  induction l with
  | nil => simp [stable_sort]
  | cons x xs ih =>
    unfold stable_sort
    exact sorted_insert_sorted h x _ ih

theorem sublist_sorted_insert (comp : Nat → Nat → Bool) (x : Nat) (l : List Nat) :
    l.Sublist (sorted_insert comp x l) := by
  induction l with
  | nil => simp
  | cons y ys ih =>
    unfold sorted_insert
    split
    · exact List.sublist_cons_self x _
    · exact ih.cons₂ y

theorem cons_sublist_sorted_insert (comp : Nat → Nat → Bool) (x : Nat) {c l : List Nat}
    (hc : c.Sublist l) (hx : ∀ b ∈ c, comp b x = false) :
    (x :: c).Sublist (sorted_insert comp x l) := by
  induction l generalizing c with
  | nil =>
    have : c = [] := List.sublist_nil.mp hc
    subst this
    simp [sorted_insert]
  | cons y ys ih =>
    unfold sorted_insert
    split
    · exact hc.cons₂ x
    · rename_i hyx
      cases hc with
      | cons _ h => exact (ih h hx).cons y
      | cons₂ _ h => exact absurd (hx y (List.mem_cons_self _ _)) hyx

/-- Stability: a sublist of the input whose elements do not have to be
exchanged is still a sublist of the output. -/
theorem sublist_stable_sort (comp : Nat → Nat → Bool) {c l : List Nat}
    (hr : c.Pairwise (fun a b => comp b a = false)) (hc : c.Sublist l) :
    c.Sublist (stable_sort comp l) := by
  induction l generalizing c with
  | nil => simpa [stable_sort] using hc
  | cons x xs ih =>
    unfold stable_sort
    cases hc with
    | cons _ h => exact (ih hr h).trans (sublist_sorted_insert comp x _)
    | cons₂ _ h =>
      obtain ⟨hx, hp⟩ := List.pairwise_cons.mp hr
      exact cons_sublist_sorted_insert comp x (ih hp h) hx

/-- A stable sort is in particular an implementation of `std::sort`. -/
theorem stable_sort_contract : StdSortContract stable_sort where
  perm := fun comp l _ => stable_sort_perm comp l
  sorted := fun _ l h => stable_sort_sorted h l

theorem ValidOffsets.mono_le {offsets : Nat → Int} {n L : Nat} (h : ValidOffsets offsets n L)
    {i j : Nat} (hij : i ≤ j) (hj : j < n) : offsets i ≤ offsets j := by
  induction j with
  | zero =>
    have : i = 0 := by omega
    subst this
    exact le_refl _
  | succ j ih =>
    rcases Nat.eq_or_lt_of_le hij with rfl | hlt
    · exact le_refl _
    · exact le_trans (ih (by omega) (by omega)) (h.mono j hj)

theorem ValidOffsets.nonneg_at {offsets : Nat → Int} {n L : Nat} (h : ValidOffsets offsets n L)
    {i : Nat} (hi : i < n) : 0 ≤ offsets i :=
  le_trans h.nonneg (h.mono_le (Nat.zero_le i) hi)

theorem ValidOffsets.le_length {offsets : Nat → Int} {n L : Nat} (h : ValidOffsets offsets n L)
    {i : Nat} (hi : i < n) : offsets i ≤ (L : Int) :=
  le_trans (h.mono_le (by omega) (by have := h.pos; omega)) h.bound

theorem length_group_sorted {srt : List Nat → List Nat} (hlen : ∀ l, (srt l).length = l.length)
    (offsets : Nat → Int) (i : Nat) :
    (group_sorted srt offsets i).length = (offsets (i + 1)).toNat - (offsets i).toNat := by
  simp [group_sorted, hlen]

theorem length_sorted_upto {srt : List Nat → List Nat} (hlen : ∀ l, (srt l).length = l.length)
    {offsets : Nat → Int} {n L : Nat} (h : ValidOffsets offsets n L) :
    ∀ k, k < n → (sorted_upto srt offsets k).length = (offsets k).toNat := by
  intro k
  induction k with
  | zero => intro _; simp [sorted_upto]
  | succ k ih =>
    intro hk
    have h1 := h.mono k hk
    have h0 := h.nonneg_at (show k < n by omega)
    simp only [sorted_upto, List.length_append, ih (by omega), length_group_sorted hlen]
    omega

theorem range'_split (a b L : Nat) (hab : a ≤ b) (hbL : b ≤ L) :
    List.range' a (L - a) = List.range' a (b - a) ++ List.range' b (L - b) := by
  have h := List.range'_append_1 a (b - a) (L - b)
  have e1 : a + (b - a) = b := by omega
  have e2 : L - b + (b - a) = L - a := by omega
  rw [e1, e2] at h
  exact h.symm

/-- The state of `result` after the first `k` iterations of the loop. -/
theorem argsort_loop_upto {srt : List Nat → List Nat}
    (hlen : ∀ l, (srt l).length = l.length)
    {offsets : Nat → Int} {n L : Nat} (h : ValidOffsets offsets n L) :
    ∀ k, k < n →
      (List.range k).foldlM
        (fun res i => sort_range srt res (offsets i) (offsets (i + 1))) (List.range L)
      = some (sorted_upto srt offsets k
          ++ List.range' (offsets k).toNat (L - (offsets k).toNat)) := by
  intro k
  induction k with
  | zero =>
    intro h0
    have hb := h.le_length h0
    have hn := h.nonneg
    have e := range'_split 0 (offsets 0).toNat L (Nat.zero_le _) (by omega)
    simp only [List.range_zero, List.foldlM_nil, sorted_upto, List.range_eq_range']
    simp only [Nat.sub_zero] at e
    rw [e]
    rfl
  | succ k ih =>
    intro hk
    have hk0 : k < n := by omega
    have ha0 := h.nonneg_at hk0
    have hab := h.mono k hk
    have hbL := h.le_length hk
    have hP := length_sorted_upto hlen h k hk0
    rw [List.range_succ, List.foldlM_append, ih hk0]
    simp only [Option.bind_eq_bind, Option.some_bind, List.foldlM_cons, List.foldlM_nil,
      Option.bind_some]
    have hlenres : (sorted_upto srt offsets k
        ++ List.range' (offsets k).toNat (L - (offsets k).toNat)).length = L := by
      simp only [List.length_append, hP, List.length_range']
      omega
    have hcond : 0 ≤ offsets k ∧ offsets k ≤ offsets (k + 1) ∧
        offsets (k + 1) ≤ ((sorted_upto srt offsets k
          ++ List.range' (offsets k).toNat (L - (offsets k).toNat)).length : Int) := by
      rw [hlenres]
      exact ⟨ha0, hab, hbL⟩
    unfold sort_range
    rw [if_pos hcond]
    have hsplit := range'_split (offsets k).toNat (offsets (k + 1)).toNat L
      (by omega) (by omega)
    have hlenseg : (List.range' (offsets k).toNat
        ((offsets (k + 1)).toNat - (offsets k).toNat)).length
        = (offsets (k + 1)).toNat - (offsets k).toNat := List.length_range' ..
    have e1 : List.take (offsets k).toNat (sorted_upto srt offsets k
        ++ List.range' (offsets k).toNat (L - (offsets k).toNat))
        = sorted_upto srt offsets k := List.take_left' hP
    have e2 : List.drop (offsets k).toNat (sorted_upto srt offsets k
        ++ List.range' (offsets k).toNat (L - (offsets k).toNat))
        = List.range' (offsets k).toNat (L - (offsets k).toNat) := List.drop_left' hP
    have e3 : List.take ((offsets (k + 1)).toNat - (offsets k).toNat)
        (List.range' (offsets k).toNat (L - (offsets k).toNat))
        = List.range' (offsets k).toNat ((offsets (k + 1)).toNat - (offsets k).toNat) := by
      rw [hsplit]
      exact List.take_left' hlenseg
    have e4 : List.drop (offsets (k + 1)).toNat (sorted_upto srt offsets k
        ++ List.range' (offsets k).toNat (L - (offsets k).toNat))
        = List.range' (offsets (k + 1)).toNat (L - (offsets (k + 1)).toNat) := by
      rw [hsplit, ← List.append_assoc]
      refine List.drop_left' ?_
      simp only [List.length_append, hP, hlenseg]
      omega
    rw [e1, e2, e3, e4]
    rfl

/-- With valid offsets the loop is defined, and its result is the sorted groups
followed by the untouched indices after the last group. -/
theorem argsort_loop_eq {srt : List Nat → List Nat}
    (hlen : ∀ l, (srt l).length = l.length)
    {offsets : Nat → Int} {n L : Nat} (h : ValidOffsets offsets n L) :
    argsort_loop srt offsets n (List.range L)
      = some (sorted_upto srt offsets (n - 1)
          ++ List.range' (offsets (n - 1)).toNat (L - (offsets (n - 1)).toNat)) :=
  argsort_loop_upto hlen h (n - 1) (by have := h.pos; omega)

theorem kernel_comp_swo {T : Type} {E : ElemType T} (hE : E.Lawful) (fromptr : Nat → T)
    (ascending : Bool) : StrictWeakOrder (kernel_comp E fromptr ascending) := by
  cases ascending
  · exact desc_comp_swo hE fromptr
  · exact asc_comp_swo hE fromptr

theorem kernel_sort_perm {T : Type} {S : StdSort} (hS : StdSortContract S) {E : ElemType T} (hE : E.Lawful)
    (fromptr : Nat → T) (ascending stable : Bool) (l : List Nat) :
    (kernel_sort S E fromptr ascending stable l).Perm l := by
  cases stable
  · exact hS.perm _ l (kernel_comp_swo hE fromptr ascending)
  · exact stable_sort_perm _ l

theorem kernel_sort_length {T : Type} {S : StdSort} (hS : StdSortContract S) {E : ElemType T} (hE : E.Lawful)
    (fromptr : Nat → T) (ascending stable : Bool) (l : List Nat) :
    (kernel_sort S E fromptr ascending stable l).length = l.length :=
  (kernel_sort_perm hS hE fromptr ascending stable l).length_eq

theorem kernel_sort_sorted {T : Type} {S : StdSort} (hS : StdSortContract S) {E : ElemType T} (hE : E.Lawful)
    (fromptr : Nat → T) (ascending stable : Bool) (l : List Nat) :
    (kernel_sort S E fromptr ascending stable l).Pairwise
      (fun a b => kernel_comp E fromptr ascending b a = false) := by
  cases stable
  · exact hS.sorted _ l (kernel_comp_swo hE fromptr ascending)
  · exact stable_sort_sorted (kernel_comp_swo hE fromptr ascending) l

theorem argsort_eq_loop {T : Type} (S : StdSort) (E : ElemType T) (fromptr : Nat → T)
    (L : Nat) (offsets : Nat → Int) (n : Nat) (ascending stable : Bool) :
    awkward_ListOffsetArray_argsort S E fromptr L offsets n ascending stable
      = (argsort_loop (kernel_sort S E fromptr ascending stable) offsets n
          (List.range L)).map (fun res => (ERROR.success, res)) := by
  cases ascending <;> cases stable <;> rfl

/-- With valid offsets the kernel returns `success()` and writes `argsort_out`. -/
theorem argsort_eq {T : Type} {S : StdSort} (hS : StdSortContract S) {E : ElemType T} (hE : E.Lawful)
    (fromptr : Nat → T) {L : Nat} {offsets : Nat → Int} {n : Nat}
    (h : ValidOffsets offsets n L) (ascending stable : Bool) :
    awkward_ListOffsetArray_argsort S E fromptr L offsets n ascending stable
      = some (ERROR.success,
          argsort_out (kernel_sort S E fromptr ascending stable) offsets n L) := by
  rw [argsort_eq_loop, argsort_loop_eq (kernel_sort_length hS hE fromptr ascending stable) h]
  rfl

theorem sorted_upto_perm {srt : List Nat → List Nat} (hperm : ∀ l, (srt l).Perm l)
    {offsets : Nat → Int} {n L : Nat} (h : ValidOffsets offsets n L) :
    ∀ k, k < n → (sorted_upto srt offsets k).Perm (List.range (offsets k).toNat) := by
  intro k
  induction k with
  | zero => intro _; exact List.Perm.refl _
  | succ k ih =>
    intro hk
    have h1 := h.mono k hk
    have h0 := h.nonneg_at (show k < n by omega)
    have e := range'_split 0 (offsets k).toNat (offsets (k + 1)).toNat (Nat.zero_le _)
      (by omega)
    simp only [Nat.sub_zero] at e
    rw [List.range_eq_range' (n := (offsets (k + 1)).toNat), e, ← List.range_eq_range']
    exact List.Perm.append (ih (by omega)) (hperm _)

theorem argsort_out_perm {srt : List Nat → List Nat} (hperm : ∀ l, (srt l).Perm l)
    {offsets : Nat → Int} {n L : Nat} (h : ValidOffsets offsets n L) :
    (argsort_out srt offsets n L).Perm (List.range L) := by
  have hn : n - 1 < n := by have := h.pos; omega
  have hb := h.le_length hn
  have h0 := h.nonneg_at hn
  have e := range'_split 0 (offsets (n - 1)).toNat L (Nat.zero_le _) (by omega)
  simp only [Nat.sub_zero] at e
  rw [List.range_eq_range' (n := L), e, ← List.range_eq_range']
  exact List.Perm.append (sorted_upto_perm hperm h (n - 1) hn) (List.Perm.refl _)

theorem sorted_upto_split (srt : List Nat → List Nat) (offsets : Nat → Int) :
    ∀ k i, i < k → ∃ X, sorted_upto srt offsets k
      = sorted_upto srt offsets i ++ group_sorted srt offsets i ++ X := by
  intro k
  induction k with
  | zero => intro i hi; omega
  | succ k ih =>
    intro i hi
    rcases Nat.eq_or_lt_of_le (Nat.le_of_lt_succ hi) with rfl | hlt
    · exact ⟨[], by simp [sorted_upto]⟩
    · obtain ⟨X, hX⟩ := ih i hlt
      exact ⟨X ++ group_sorted srt offsets k, by simp [sorted_upto, hX]⟩

/-- Group `i` of the output is a contiguous block: the output is `A ++ G ++ R`
with `G` the sorted indices of the group, starting at position `offsets[i]`. -/
theorem argsort_out_group {srt : List Nat → List Nat}
    (hlen : ∀ l, (srt l).length = l.length)
    {offsets : Nat → Int} {n L : Nat} (h : ValidOffsets offsets n L)
    (i : Nat) (hi : i + 1 < n) :
    ∃ A R, argsort_out srt offsets n L = A ++ group_sorted srt offsets i ++ R
      ∧ A.length = (offsets i).toNat := by
  obtain ⟨X, hX⟩ := sorted_upto_split srt offsets (n - 1) i (by omega)
  refine ⟨sorted_upto srt offsets i, X ++ List.range' (offsets (n - 1)).toNat
    (L - (offsets (n - 1)).toNat), ?_, length_sorted_upto hlen h i (by omega)⟩
  simp [argsort_out, hX]

theorem getD_block (A G R : List Nat) (j : Nat) (hj : j < G.length) :
    (A ++ G ++ R).getD (A.length + j) 0 = G.getD j 0 := by
  simp only [List.getD_eq_getElem?_getD]
  rw [List.append_assoc, List.getElem?_append_right (Nat.le_add_right _ _)]
  simp only [Nat.add_sub_cancel_left]
  rw [List.getElem?_append_left hj]

theorem getElem?_block (A G R : List Nat) (j : Nat) (hj : j < G.length) :
    (A ++ G ++ R)[A.length + j]? = G[j]? := by
  rw [List.append_assoc, List.getElem?_append_right (Nat.le_add_right _ _)]
  simp only [Nat.add_sub_cancel_left]
  rw [List.getElem?_append_left hj]

/-- A relation that holds pairwise in the block `G` holds between the output
entries at any two positions `p < q` of the block. -/
theorem pairwise_block {Rel : Nat → Nat → Prop} (A G R : List Nat)
    (hG : G.Pairwise Rel) (p q : Nat) (hp : A.length ≤ p) (hpq : p < q)
    (hq : q < A.length + G.length) :
    Rel ((A ++ G ++ R).getD p 0) ((A ++ G ++ R).getD q 0) := by
  obtain ⟨j, rfl⟩ := Nat.exists_eq_add_of_le hp
  obtain ⟨k, rfl⟩ := Nat.exists_eq_add_of_le (show A.length ≤ q by omega)
  have hj : j < G.length := by omega
  have hk : k < G.length := by omega
  rw [getD_block A G R j hj, getD_block A G R k hk]
  simp only [List.getD_eq_getElem?_getD, List.getElem?_eq_getElem hj,
    List.getElem?_eq_getElem hk, Option.getD_some]
  exact List.pairwise_iff_getElem.mp hG j k hj hk (by omega)

theorem pair_sublist_positions {a b : Nat} {l : List Nat} (h : [a, b].Sublist l) :
    ∃ p q, p < q ∧ q < l.length ∧ l[p]? = some a ∧ l[q]? = some b := by
  induction l with
  | nil => cases h
  | cons x xs ih =>
    cases h with
    | cons _ h' =>
      obtain ⟨p, q, hpq, hq, hp1, hq1⟩ := ih h'
      exact ⟨p + 1, q + 1, by omega, by simp; omega, by simpa using hp1, by simpa using hq1⟩
    | cons₂ _ h' =>
      have hb : b ∈ xs := by simpa using h'
      obtain ⟨q, hq, hqb⟩ := List.getElem_of_mem hb
      exact ⟨0, q + 1, by omega, by simp; omega, by simp,
        by simp [List.getElem?_eq_getElem hq, hqb]⟩

theorem pair_sublist_range' (a len i j : Nat) (hai : a ≤ i) (hij : i < j)
    (hj : j < a + len) : [i, j].Sublist (List.range' a len) := by
  have e1 := range'_split a i (a + len) hai (by omega)
  have e2 := range'_split i j (a + len) (by omega) (by omega)
  have e3 : a + len - a = len := by omega
  rw [e3] at e1
  rw [e1, e2]
  have hi : j - i = (j - i - 1) + 1 := by omega
  have hjl : a + len - j = (a + len - j - 1) + 1 := by omega
  rw [hi, hjl]
  simp only [List.range'_succ]
  refine List.Sublist.trans ?_ (List.sublist_append_right _ _)
  refine List.Sublist.cons₂ i ?_
  refine List.Sublist.trans ?_ (List.sublist_append_right _ _)
  exact List.Sublist.cons₂ j (List.nil_sublist _)

theorem mem_group_sorted {srt : List Nat → List Nat} (hperm : ∀ l, (srt l).Perm l)
    {offsets : Nat → Int} {n L : Nat} (h : ValidOffsets offsets n L)
    (i : Nat) (hi : i + 1 < n) {x : Nat} (hx : x ∈ group_sorted srt offsets i) :
    (offsets i).toNat ≤ x ∧ x < (offsets (i + 1)).toNat ∧ x < L := by
  have hm := (hperm _).mem_iff.mp hx
  rw [List.mem_range'_1] at hm
  have h1 := h.mono i hi
  have h0 := h.nonneg_at (show i < n by omega)
  have hb := h.le_length hi
  omega

/-- Sortedness of every group of the output, by positions. -/
theorem argsort_positions_sorted {T : Type} {S : StdSort} (hS : StdSortContract S) {E : ElemType T} (hE : E.Lawful)
    (fromptr : Nat → T) {L : Nat} {offsets : Nat → Int} {n : Nat}
    (h : ValidOffsets offsets n L) (ascending stable : Bool)
    (i p q : Nat) (hi : i + 1 < n) (hp : offsets i ≤ (p : Int)) (hpq : p < q)
    (hq : (q : Int) < offsets (i + 1)) :
    let out := argsort_out (kernel_sort S E fromptr ascending stable) offsets n L
    kernel_comp E fromptr ascending (out.getD q 0) (out.getD p 0) = false
      ∧ out.getD p 0 < L ∧ out.getD q 0 < L := by
  intro out
  have hlen := kernel_sort_length hS hE fromptr ascending stable
  have hperm := kernel_sort_perm hS hE fromptr ascending stable
  obtain ⟨A, R, hout, hA⟩ := argsort_out_group hlen h i hi
  have hG : (group_sorted (kernel_sort S E fromptr ascending stable) offsets i).Pairwise
      (fun a b => kernel_comp E fromptr ascending b a = false ∧ a < L ∧ b < L) := by
    refine List.Pairwise.imp_of_mem ?_ (kernel_sort_sorted hS hE fromptr ascending stable _)
    intro a b ha hb hab
    exact ⟨hab, (mem_group_sorted hperm h i hi ha).2.2, (mem_group_sorted hperm h i hi hb).2.2⟩
  have h1 := h.mono i hi
  have h0 := h.nonneg_at (show i < n by omega)
  have hGl := length_group_sorted hlen offsets i
  have := pairwise_block A _ R hG p q (by omega) hpq (by omega)
  show _ ∧ _ ∧ _
  simp only [out, hout]
  exact this

theorem kernel_comp_eq {T : Type} (E : ElemType T) (fromptr : Nat → T) (ascending : Bool)
    (a b : Nat) :
    kernel_comp E fromptr ascending a b = kernel_order E ascending (fromptr a) (fromptr b) := by
  cases ascending <;> rfl

/-- A sorted rearrangement of a list whose elements are strictly ordered is
that list: when no two elements are equivalent, the contract of `std::sort`
determines its result. -/
theorem sorted_perm_unique {comp : Nat → Nat → Bool} :
    ∀ (target l : List Nat), target.Pairwise (fun a b => comp a b = true) →
      l.Perm target → l.Pairwise (fun a b => comp b a = false) → l = target := by
  intro target
  induction target with
  | nil => intro l _ hp _; exact hp.eq_nil
  | cons t ts ih =>
    intro l ht hp hl
    cases l with
    | nil => exact absurd hp.symm.eq_nil (by simp)
    | cons x xs =>
      obtain ⟨ht1, ht2⟩ := List.pairwise_cons.mp ht
      obtain ⟨hl1, hl2⟩ := List.pairwise_cons.mp hl
      by_cases hxt : x = t
      · subst hxt
        rw [ih xs ht2 (List.Perm.cons_inv hp) hl2]
      · exfalso
        have htx : t ∈ xs := by
          have : t ∈ x :: xs := hp.mem_iff.mpr (List.mem_cons_self _ _)
          rcases List.mem_cons.mp this with h | h
          · exact absurd h.symm hxt
          · exact h
        have hxts : x ∈ ts := by
          have : x ∈ t :: ts := hp.mem_iff.mp (List.mem_cons_self _ _)
          rcases List.mem_cons.mp this with h | h
          · exact absurd h hxt
          · exact h
        have h1 := hl1 t htx
        have h2 := ht1 x hxts
        simp [h1] at h2

theorem ex_valid : ValidOffsets ex_offsets 3 5 where
  pos := by decide
  nonneg := by decide
  mono := by
    intro i hi
    have : i = 0 ∨ i = 1 := by omega
    rcases this with rfl | rfl <;> decide
  bound := by decide

/-! ## Statements about the argsort kernel -/

/-- C1: for a value buffer of length `L`, valid offsets (at least one offset,
non-decreasing, within `[0, L]`) and every combination of the two flags, the
kernel returns success and its output has length `L` and is a permutation of
`0, ..., L-1`: every index appears exactly once. -/
theorem C1_argsort_success_permutation {T : Type} (S : StdSort) (hS : StdSortContract S)
    (E : ElemType T) (hE : E.Lawful) (fromptr : Nat → T) (L : Nat) (offsets : Nat → Int) (n : Nat)
    (h : ValidOffsets offsets n L) (ascending stable : Bool) :
    ∃ out, awkward_ListOffsetArray_argsort S E fromptr L offsets n ascending stable
        = some (ERROR.success, out)
      ∧ out.length = L ∧ out.Perm (List.range L) ∧ ∀ j, j < L → out.count j = 1 := by
  have hperm := argsort_out_perm (kernel_sort_perm hS hE fromptr ascending stable) h
  refine ⟨_, argsort_eq hS hE fromptr h ascending stable, ?_, hperm, ?_⟩
  · simpa using hperm.length_eq
  · intro j hj
    rw [hperm.count_eq]
    exact List.count_eq_one_of_mem (List.nodup_range L) (List.mem_range.mpr hj)

theorem C1_witness :
    ValidOffsets ex_offsets 3 5 ∧
    ∃ out, awkward_ListOffsetArray_argsort stable_sort float64Elem ex_values 5 ex_offsets 3
        false false = some (ERROR.success, out)
      ∧ out.length = 5 ∧ out.Perm (List.range 5) ∧ ∀ j, j < 5 → out.count j = 1 :=
  ⟨ex_valid, C1_argsort_success_permutation stable_sort stable_sort_contract float64Elem float64Elem_lawful
    ex_values 5 ex_offsets 3 ex_valid false false⟩

/-- C2: with `ascending = true` (stable or not), a value buffer without NaN and
valid offsets, every group of the output is ordered by non-decreasing value:
for positions `p < q` with `offsets[i] <= p < q < offsets[i+1]`,
`value[out[p]] <= value[out[q]]`. -/
theorem C2_argsort_ascending_sorted {T : Type} (S : StdSort) (hS : StdSortContract S)
    (E : ElemType T) (hE : E.Lawful) (fromptr : Nat → T) (L : Nat) (offsets : Nat → Int) (n : Nat)
    (h : ValidOffsets offsets n L) (hnan : ∀ k, k < L → E.isnan (fromptr k) = false)
    (stable : Bool) :
    ∃ out, awkward_ListOffsetArray_argsort S E fromptr L offsets n true stable
        = some (ERROR.success, out)
      ∧ ∀ i p q : Nat, i + 1 < n → offsets i ≤ (p : Int) → p < q →
          (q : Int) < offsets (i + 1) →
          E.le (fromptr (out.getD p 0)) (fromptr (out.getD q 0)) = true := by
  refine ⟨_, argsort_eq hS hE fromptr h true stable, ?_⟩
  intro i p q hi hp hpq hq
  obtain ⟨hc, hpL, hqL⟩ :=
    argsort_positions_sorted hS hE fromptr h true stable i p q hi hp hpq hq
  have np := hnan _ hpL
  have nq := hnan _ hqL
  simp only [kernel_comp, asc_comp, awkward_ListOffsetArray_argsort_order_ascending,
    if_true, np, nq] at hc
  simp only [ElemType.le, np, nq]
  simpa using hc

theorem C2_witness :
    ValidOffsets ex_offsets 3 5 ∧ (∀ k, k < 5 → int64Elem.isnan (ex_int_values k) = false) ∧
    ∃ out, awkward_ListOffsetArray_argsort stable_sort int64Elem ex_int_values 5
        ex_offsets 3 true false = some (ERROR.success, out)
      ∧ ∀ i p q : Nat, i + 1 < 3 → ex_offsets i ≤ (p : Int) → p < q →
          (q : Int) < ex_offsets (i + 1) →
          int64Elem.le (ex_int_values (out.getD p 0)) (ex_int_values (out.getD q 0)) = true :=
  ⟨ex_valid, fun _ _ => isnan_int64_to_double _,
    C2_argsort_ascending_sorted stable_sort stable_sort_contract int64Elem int64Elem_lawful ex_int_values 5
      ex_offsets 3 ex_valid (fun _ _ => isnan_int64_to_double _) false⟩

/-- C3: with `ascending = false` (stable or not), a value buffer without NaN
and valid offsets, every group of the output is ordered by non-increasing
value: for positions `p < q` with `offsets[i] <= p < q < offsets[i+1]`,
`value[out[p]] >= value[out[q]]`. -/
theorem C3_argsort_descending_sorted {T : Type} (S : StdSort) (hS : StdSortContract S)
    (E : ElemType T) (hE : E.Lawful) (fromptr : Nat → T) (L : Nat) (offsets : Nat → Int) (n : Nat)
    (h : ValidOffsets offsets n L) (hnan : ∀ k, k < L → E.isnan (fromptr k) = false)
    (stable : Bool) :
    ∃ out, awkward_ListOffsetArray_argsort S E fromptr L offsets n false stable
        = some (ERROR.success, out)
      ∧ ∀ i p q : Nat, i + 1 < n → offsets i ≤ (p : Int) → p < q →
          (q : Int) < offsets (i + 1) →
          E.le (fromptr (out.getD q 0)) (fromptr (out.getD p 0)) = true := by
  refine ⟨_, argsort_eq hS hE fromptr h false stable, ?_⟩
  intro i p q hi hp hpq hq
  obtain ⟨hc, hpL, hqL⟩ :=
    argsort_positions_sorted hS hE fromptr h false stable i p q hi hp hpq hq
  have np := hnan _ hpL
  have nq := hnan _ hqL
  simp only [kernel_comp, Bool.false_eq_true, if_false, desc_comp,
    awkward_ListOffsetArray_argsort_order_descending, np, nq, hE.gt_eq] at hc
  simp only [ElemType.le, np, nq]
  simpa using hc

theorem C3_witness :
    ValidOffsets ex_offsets 3 5 ∧ (∀ k, k < 5 → int64Elem.isnan (ex_int_values k) = false) ∧
    ∃ out, awkward_ListOffsetArray_argsort stable_sort int64Elem ex_int_values 5
        ex_offsets 3 false true = some (ERROR.success, out)
      ∧ ∀ i p q : Nat, i + 1 < 3 → ex_offsets i ≤ (p : Int) → p < q →
          (q : Int) < ex_offsets (i + 1) →
          int64Elem.le (ex_int_values (out.getD q 0)) (ex_int_values (out.getD p 0)) = true :=
  ⟨ex_valid, fun _ _ => isnan_int64_to_double _,
    C3_argsort_descending_sorted stable_sort stable_sort_contract int64Elem int64Elem_lawful ex_int_values 5
      ex_offsets 3 ex_valid (fun _ _ => isnan_int64_to_double _) true⟩

/-- C4: groups are never interleaved. For valid offsets, every flag combination
and every group `i`, the output entries at the positions
`offsets[i] <= p < offsets[i+1]` are the indices `offsets[i], ..., offsets[i+1]-1`
in some order. -/
theorem C4_argsort_groups_not_interleaved {T : Type} (S : StdSort) (hS : StdSortContract S)
    (E : ElemType T) (hE : E.Lawful) (fromptr : Nat → T) (L : Nat) (offsets : Nat → Int) (n : Nat)
    (h : ValidOffsets offsets n L) (ascending stable : Bool) :
    ∃ out, awkward_ListOffsetArray_argsort S E fromptr L offsets n ascending stable
        = some (ERROR.success, out)
      ∧ ∀ i : Nat, i + 1 < n →
          ((out.drop (offsets i).toNat).take
              ((offsets (i + 1)).toNat - (offsets i).toNat)).Perm
            (List.range' (offsets i).toNat ((offsets (i + 1)).toNat - (offsets i).toNat)) := by
  refine ⟨_, argsort_eq hS hE fromptr h ascending stable, ?_⟩
  intro i hi
  have hlen := kernel_sort_length hS hE fromptr ascending stable
  obtain ⟨A, R, hout, hA⟩ := argsort_out_group hlen h i hi
  rw [hout, List.append_assoc, List.drop_left' hA,
    List.take_left' (length_group_sorted hlen offsets i)]
  exact kernel_sort_perm hS hE fromptr ascending stable _

theorem C4_witness :
    ValidOffsets ex_offsets 3 5 ∧
    ∃ out, awkward_ListOffsetArray_argsort stable_sort float64Elem ex_values 5 ex_offsets 3
        true false = some (ERROR.success, out)
      ∧ ∀ i : Nat, i + 1 < 3 →
          ((out.drop (ex_offsets i).toNat).take
              ((ex_offsets (i + 1)).toNat - (ex_offsets i).toNat)).Perm
            (List.range' (ex_offsets i).toNat
              ((ex_offsets (i + 1)).toNat - (ex_offsets i).toNat)) :=
  ⟨ex_valid, C4_argsort_groups_not_interleaved stable_sort stable_sort_contract float64Elem float64Elem_lawful
    ex_values 5 ex_offsets 3 ex_valid true false⟩

/-- C5: with `stable = true`, in either direction, two indices `i < j` of the
same group whose values are equivalent under the comparator (neither has to
precede the other: equal values, or both NaN) keep their order: `i` is at an
earlier position of that group of the output than `j`. -/
theorem C5_argsort_stable {T : Type} (S : StdSort) (hS : StdSortContract S)
    (E : ElemType T) (hE : E.Lawful) (fromptr : Nat → T) (L : Nat) (offsets : Nat → Int) (n : Nat)
    (h : ValidOffsets offsets n L) (ascending : Bool) (g i j : Nat) (hg : g + 1 < n)
    (hi : offsets g ≤ (i : Int)) (hij : i < j) (hj : (j : Int) < offsets (g + 1))
    (heq1 : kernel_order E ascending (fromptr i) (fromptr j) = false)
    (heq2 : kernel_order E ascending (fromptr j) (fromptr i) = false) :
    ∃ out, awkward_ListOffsetArray_argsort S E fromptr L offsets n ascending true
        = some (ERROR.success, out)
      ∧ ∃ p q : Nat, offsets g ≤ (p : Int) ∧ p < q ∧ (q : Int) < offsets (g + 1)
          ∧ out[p]? = some i ∧ out[q]? = some j := by
  refine ⟨_, argsort_eq hS hE fromptr h ascending true, ?_⟩
  have _ := heq1
  have hlen := kernel_sort_length hS hE fromptr ascending true
  obtain ⟨A, R, hout, hA⟩ := argsort_out_group hlen h g hg
  have h1 := h.mono g hg
  have h0 := h.nonneg_at (show g < n by omega)
  have hGl := length_group_sorted hlen offsets g
  have hsub : [i, j].Sublist (group_sorted (kernel_sort S E fromptr ascending true) offsets g) := by
    refine sublist_stable_sort (kernel_comp E fromptr ascending) ?_
      (pair_sublist_range' _ _ i j (by omega) hij (by omega))
    simpa [kernel_comp_eq] using heq2
  obtain ⟨p, q, hpq, hq, hp1, hq1⟩ := pair_sublist_positions hsub
  refine ⟨A.length + p, A.length + q, by omega, by omega, by omega, ?_, ?_⟩
  · rw [hout, getElem?_block A _ R p (by omega)]
    exact hp1
  · rw [hout, getElem?_block A _ R q hq]
    exact hq1

theorem C5_witness :
    ValidOffsets ex_offsets 3 5 ∧ 1 + 1 < 3 ∧ ex_offsets 1 ≤ ((3 : Nat) : Int) ∧ 3 < 4
      ∧ ((4 : Nat) : Int) < ex_offsets (1 + 1)
      ∧ kernel_order float64Elem false (ex_values 3) (ex_values 4) = false
      ∧ kernel_order float64Elem false (ex_values 4) (ex_values 3) = false
      ∧ ∃ out, awkward_ListOffsetArray_argsort stable_sort float64Elem ex_values 5
          ex_offsets 3 false true = some (ERROR.success, out)
        ∧ ∃ p q : Nat, ex_offsets 1 ≤ (p : Int) ∧ p < q ∧ (q : Int) < ex_offsets (1 + 1)
            ∧ out[p]? = some 3 ∧ out[q]? = some 4 :=
  ⟨ex_valid, by decide, by decide, by decide, by decide, by decide, by decide,
    C5_argsort_stable stable_sort stable_sort_contract float64Elem float64Elem_lawful ex_values 5 ex_offsets 3
      ex_valid false 1 3 4 (by decide) (by decide) (by decide) (by decide) (by decide)
      (by decide)⟩

/-- C6: both float comparators treat NaN alike. `cmp(NaN, x)` is true exactly
for the `x` that are not NaN (so it is false for `x` NaN), and `cmp(x, NaN)` is
false for every `x`: NaN is strictly less than every other value in both
directions and NaNs are mutually equivalent. -/
theorem C6_comparators_nan (x : F64) :
    awkward_ListOffsetArray_argsort_order_ascending float64Elem F64.nan x = !x.isnan
      ∧ awkward_ListOffsetArray_argsort_order_descending float64Elem F64.nan x = !x.isnan
      ∧ awkward_ListOffsetArray_argsort_order_ascending float64Elem x F64.nan = false
      ∧ awkward_ListOffsetArray_argsort_order_descending float64Elem x F64.nan = false
      ∧ awkward_ListOffsetArray_argsort_order_ascending float64Elem F64.nan F64.nan = false
      ∧ awkward_ListOffsetArray_argsort_order_descending float64Elem F64.nan F64.nan
          = false := by
  cases x <;>
    simp [awkward_ListOffsetArray_argsort_order_ascending,
      awkward_ListOffsetArray_argsort_order_descending, float64Elem, F64.isnan, F64.lt]

theorem argsort_one_group {T : Type} (S : StdSort) (E : ElemType T) (fromptr : Nat → T)
    (ascending stable : Bool) :
    awkward_ListOffsetArray_argsort S E fromptr 3 ex7_offsets 2 ascending stable
      = some (ERROR.success, kernel_sort S E fromptr ascending stable [0, 1, 2]) := by
  rw [argsort_eq_loop]
  simp [argsort_loop, sort_range, ex7_offsets, ptr_of, List.range_succ]

theorem kernel_sort_unique {T : Type} {S : StdSort} (hS : StdSortContract S) {E : ElemType T} (hE : E.Lawful)
    (fromptr : Nat → T) (ascending stable : Bool) (l target : List Nat)
    (ht : target.Pairwise (fun a b => kernel_comp E fromptr ascending a b = true))
    (hp : target.Perm l) :
    kernel_sort S E fromptr ascending stable l = target :=
  sorted_perm_unique target _ ht
    ((kernel_sort_perm hS hE fromptr ascending stable l).trans hp.symm)
    (kernel_sort_sorted hS hE fromptr ascending stable l)

/-- C7: for float values, in either direction and for either value of the
stable flag, every group of the output lists the indices holding NaN before
the indices holding other values (an entry whose value is NaN is never at a
later position of its group than an entry whose value is not); and on the
values `[3, NaN, 1]` with offsets `[0, 3]` the output is exactly `[1, 2, 0]`
when ascending and exactly `[1, 0, 2]` when descending. -/
theorem C7_argsort_nan_first (S : StdSort) (hS : StdSortContract S) (fromptr : Nat → F64) (L : Nat)
    (offsets : Nat → Int) (n : Nat) (h : ValidOffsets offsets n L)
    (ascending stable : Bool) :
    (∃ out, awkward_ListOffsetArray_argsort S float64Elem fromptr L offsets n ascending stable
        = some (ERROR.success, out)
      ∧ ∀ i p q : Nat, i + 1 < n → offsets i ≤ (p : Int) → p < q →
          (q : Int) < offsets (i + 1) →
          (fromptr (out.getD q 0)).isnan = true → (fromptr (out.getD p 0)).isnan = true)
    ∧ awkward_ListOffsetArray_argsort S float64Elem ex7_values 3 ex7_offsets 2 true stable
        = some (ERROR.success, [1, 2, 0])
    ∧ awkward_ListOffsetArray_argsort S float64Elem ex7_values 3 ex7_offsets 2 false stable
        = some (ERROR.success, [1, 0, 2]) := by
  refine ⟨⟨_, argsort_eq hS float64Elem_lawful fromptr h ascending stable, ?_⟩, ?_, ?_⟩
  · intro i p q hi hp hpq hq hnan
    obtain ⟨hc, _, _⟩ := argsort_positions_sorted hS float64Elem_lawful fromptr h ascending
      stable i p q hi hp hpq hq
    have hnan' : float64Elem.isnan (fromptr ((argsort_out
        (kernel_sort S float64Elem fromptr ascending stable) offsets n L).getD q 0)) = true :=
      hnan
    rw [kernel_comp_eq] at hc
    cases ascending <;>
      simp only [kernel_order, awkward_ListOffsetArray_argsort_order_ascending,
        awkward_ListOffsetArray_argsort_order_descending, hnan', Bool.false_eq_true,
        if_false, if_true, Bool.true_or, Bool.and_true, Bool.not_eq_false'] at hc <;>
      exact hc
  · rw [argsort_one_group]
    exact congrArg (fun l => some (ERROR.success, l))
      (kernel_sort_unique hS float64Elem_lawful ex7_values true stable [0, 1, 2] [1, 2, 0]
        (by decide) (by decide))
  · rw [argsort_one_group]
    exact congrArg (fun l => some (ERROR.success, l))
      (kernel_sort_unique hS float64Elem_lawful ex7_values false stable [0, 1, 2] [1, 0, 2]
        (by decide) (by decide))

theorem C7_witness :
    ValidOffsets ex_offsets 3 5 ∧
    ((∃ out, awkward_ListOffsetArray_argsort stable_sort float64Elem ex_values 5 ex_offsets 3
        false false = some (ERROR.success, out)
      ∧ ∀ i p q : Nat, i + 1 < 3 → ex_offsets i ≤ (p : Int) → p < q →
          (q : Int) < ex_offsets (i + 1) →
          (ex_values (out.getD q 0)).isnan = true → (ex_values (out.getD p 0)).isnan = true)
    ∧ awkward_ListOffsetArray_argsort stable_sort float64Elem ex7_values 3 ex7_offsets 2
        true false = some (ERROR.success, [1, 2, 0])
    ∧ awkward_ListOffsetArray_argsort stable_sort float64Elem ex7_values 3 ex7_offsets 2
        false false = some (ERROR.success, [1, 0, 2])) :=
  ⟨ex_valid, C7_argsort_nan_first stable_sort stable_sort_contract ex_values 5 ex_offsets 3 ex_valid false false⟩

/-! ## Lemmas on growable buffers -/

theorem take_set_succ {T : Type} (l : List T) (n : Nat) (x : T) (h : n < l.length) :
    (l.set n x).take (n + 1) = l.take n ++ [x] := by
  induction l generalizing n with
  | nil => simp at h
  | cons y ys ih =>
    cases n with
    | zero => simp
    | succ n =>
      have h' : n < ys.length := by simpa using h
      simp [ih n h']

theorem GrowableBuffer.grown_gt (options : ArrayBuilderOptions) (reserved : Nat) :
    reserved < GrowableBuffer.grown options reserved := by
  unfold GrowableBuffer.grown
  exact lt_of_lt_of_le (Nat.lt_succ_self reserved) (le_max_left _ _)

theorem GrowableBuffer.append_length {T : Type} [Inhabited T] (b : GrowableBuffer T) (x : T) :
    (b.append x).length = b.length + 1 := rfl

theorem GrowableBuffer.append_options {T : Type} [Inhabited T] (b : GrowableBuffer T)
    (x : T) : (b.append x).options = b.options := rfl

theorem GrowableBuffer.append_values {T : Type} [Inhabited T] (b : GrowableBuffer T) (x : T)
    (h : b.WF) : (b.append x).values = b.values ++ [x] := by
  unfold GrowableBuffer.WF at h
  unfold GrowableBuffer.append GrowableBuffer.values
  simp only
  split
  · rename_i heq
    have hg := GrowableBuffer.grown_gt b.options b.ptr.length
    rw [take_set_succ _ _ _ (by simp only [List.length_append, List.length_replicate]; omega)]
    rw [List.take_append_of_le_length (by omega)]
  · rename_i hne
    rw [take_set_succ _ _ _ (by omega)]

theorem GrowableBuffer.append_WF {T : Type} [Inhabited T] (b : GrowableBuffer T) (x : T)
    (h : b.WF) : (b.append x).WF := by
  unfold GrowableBuffer.WF at *
  unfold GrowableBuffer.append
  simp only
  split
  · rename_i heq
    have hg := GrowableBuffer.grown_gt b.options b.ptr.length
    simp only [List.length_set, List.length_append, List.length_replicate]
    omega
  · rename_i hne
    simp only [List.length_set]
    omega

theorem GrowableBuffer.append_reserved {T : Type} [Inhabited T] (b : GrowableBuffer T) (x : T)
    (h : b.length < b.ptr.length) : (b.append x).reserved = b.reserved := by
  unfold GrowableBuffer.append GrowableBuffer.reserved
  simp only
  rw [if_neg (by omega)]
  simp

theorem GrowableBuffer.empty_WF {T : Type} [Inhabited T] (options : ArrayBuilderOptions) :
    (GrowableBuffer.empty options : GrowableBuffer T).WF :=
  Nat.zero_le _

theorem GrowableBuffer.empty_values {T : Type} [Inhabited T] (options : ArrayBuilderOptions) :
    (GrowableBuffer.empty options : GrowableBuffer T).values = [] := rfl

/-! ## Lemmas on the conversion loop -/

theorem foldlM_none_of_mem {α β : Type} (f : β → α → Option β) (c : α)
    (hc : ∀ s, f s c = none) : ∀ (l : List α) (init : β), c ∈ l → l.foldlM f init = none := by
  intro l
  induction l with
  | nil => intro _ h; simp at h
  | cons a t ih =>
    intro init h
    rw [List.foldlM_cons]
    cases hfa : f init a with
    | none => rfl
    | some s =>
      have hne : c ≠ a := by
        intro e
        subst e
        rw [hc init] at hfa
        exact Option.noConfusion hfa
      have hct : c ∈ t := by
        rcases List.mem_cons.mp h with h | h
        · exact absurd h hne
        · exact h
      exact ih s hct

/-- The loop leaves the allocations as soon as its bound exceeds the size of
the old one. -/
theorem convert_loop_none {T : Type} (conv : T → Complex128) (oldraw : List T) (bound : Nat)
    (newraw : List Complex128) (h : oldraw.length < bound) :
    convert_loop conv oldraw bound newraw = none := by
  unfold convert_loop
  refine foldlM_none_of_mem _ oldraw.length ?_ _ _ (List.mem_range.mpr h)
  intro s
  simp [raw_read]

/-- A loop that stays inside both allocations converts the first `bound` cells
and leaves the other cells of the new allocation as they were. -/
theorem convert_loop_some {T : Type} (conv : T → Complex128) (oldraw : List T)
    (newraw : List Complex128) :
    ∀ bound, bound ≤ oldraw.length → bound ≤ newraw.length →
      convert_loop conv oldraw bound newraw
        = some ((oldraw.take bound).map conv ++ newraw.drop bound) := by
  intro bound
  induction bound with
  | zero => intro _ _; simp [convert_loop]
  | succ k ih =>
    intro h1 h2
    have ih' := ih (by omega) (by omega)
    unfold convert_loop at ih' ⊢
    rw [List.range_succ, List.foldlM_append, ih']
    have hread : raw_read oldraw k = some (oldraw[k]) := by
      simp [raw_read, List.getElem?_eq_getElem (show k < oldraw.length by omega)]
    have hlen : ((oldraw.take k).map conv).length = k := by
      simp only [List.length_map, List.length_take]
      omega
    have hdrop : newraw.drop k = newraw[k] :: newraw.drop (k + 1) :=
      List.drop_eq_getElem_cons (by omega)
    have htake : oldraw.take (k + 1) = oldraw.take k ++ [oldraw[k]] := by
      rw [List.take_succ, List.getElem?_eq_getElem (show k < oldraw.length by omega)]
      rfl
    simp only [Option.bind_eq_bind, Option.some_bind, List.foldlM_cons, List.foldlM_nil,
      hread, raw_write]
    rw [if_pos (by simp only [List.length_append, hlen, List.length_drop]; omega)]
    simp only [Option.some_bind, Option.bind_some, Option.pure_def, hdrop, htake,
      List.map_append, List.map_cons, List.map_nil, List.append_assoc, List.singleton_append]
    congr 1
    rw [List.set_append_right _ _ (by omega), hlen, Nat.sub_self]
    rfl

theorem take_map_append_drop {T : Type} (conv : T → Complex128) (oldraw : List T)
    (newraw : List Complex128) (n bound : Nat) (hn : n ≤ bound) (hb : bound ≤ oldraw.length) :
    ((oldraw.take bound).map conv ++ newraw.drop bound).take n = (oldraw.take n).map conv := by
  rw [List.take_append_of_le_length (by simp only [List.length_map, List.length_take]; omega)]
  rw [← List.map_take, List.take_take, Nat.min_eq_left hn]

/-- Where the doubled loop of `fromint64` stays inside the allocation, the new
builder holds the embedded integers. -/
theorem Complex128Builder.fromint64_within (options : ArrayBuilderOptions)
    (old : GrowableBuffer Int) (h : 2 * old.length ≤ old.reserved) :
    ∃ cb, Complex128Builder.fromint64 options old = some cb
      ∧ cb.buffer.length = old.length
      ∧ cb.buffer.values = old.values.map complex_of_int64
      ∧ cb.buffer.WF := by
  unfold GrowableBuffer.reserved at h
  unfold Complex128Builder.fromint64
  simp only [GrowableBuffer.empty_reserved, GrowableBuffer.reserved]
  rw [convert_loop_some _ _ _ _ h (by simp; omega)]
  refine ⟨_, rfl, rfl, ?_, ?_⟩
  · simp only [GrowableBuffer.values, GrowableBuffer.set_length]
    exact take_map_append_drop _ _ _ _ _ (by omega) h
  · simp only [GrowableBuffer.WF, GrowableBuffer.set_length, List.length_append,
      List.length_map, List.length_take, List.length_drop, List.length_replicate]
    omega

/-- Where the doubled loop of `fromint64` leaves the allocation of the old
buffer, the conversion is undefined. -/
theorem Complex128Builder.fromint64_overrun (options : ArrayBuilderOptions)
    (old : GrowableBuffer Int) (h : old.reserved < 2 * old.length) :
    Complex128Builder.fromint64 options old = none := by
  unfold Complex128Builder.fromint64
  simp only
  rw [convert_loop_none _ _ _ _ h]
  rfl

theorem Complex128Builder.fromfloat64_spec (options : ArrayBuilderOptions)
    (old : GrowableBuffer F64) (h : old.WF) :
    ∃ cb, Complex128Builder.fromfloat64 options old = some cb
      ∧ cb.buffer.length = old.length
      ∧ cb.buffer.values = old.values.map complex_of_float64
      ∧ cb.buffer.reserved = old.reserved := by
  unfold GrowableBuffer.WF at h
  unfold Complex128Builder.fromfloat64
  simp only [GrowableBuffer.empty_reserved, GrowableBuffer.reserved]
  rw [convert_loop_some _ _ _ _ h (by simp; omega)]
  refine ⟨_, rfl, rfl, ?_, ?_⟩
  · simp only [GrowableBuffer.values, GrowableBuffer.set_length]
    exact take_map_append_drop _ _ _ _ _ (le_refl _) h
  · simp only [GrowableBuffer.set_length, List.length_append,
      List.length_map, List.length_take, List.length_drop, List.length_replicate]
    omega

/-! ## Lemmas on sequences of appends -/

theorem Int64Builder.integers_spec (xs : List Int) :
    ∀ b : Int64Builder, b.buffer.WF →
      (b.integers xs).buffer.WF
        ∧ (b.integers xs).buffer.values = b.buffer.values ++ xs
        ∧ (b.integers xs).buffer.length = b.buffer.length + xs.length := by
  induction xs with
  | nil => intro b hb; exact ⟨hb, by simp [Int64Builder.integers], rfl⟩
  | cons x xs ih =>
    intro b hb
    have hw : (b.integer x).self.buffer.WF := GrowableBuffer.append_WF b.buffer x hb
    obtain ⟨h1, h2, h3⟩ := ih (b.integer x).self hw
    have hv : (b.integer x).self.buffer.values = b.buffer.values ++ [x] :=
      GrowableBuffer.append_values b.buffer x hb
    have hl : (b.integer x).self.buffer.length = b.buffer.length + 1 := rfl
    refine ⟨h1, ?_, ?_⟩
    · show ((b.integer x).self.integers xs).buffer.values = _
      rw [h2, hv, List.append_assoc]
      rfl
    · show ((b.integer x).self.integers xs).buffer.length = _
      rw [h3, hl, List.length_cons]
      omega

theorem Int64Builder.integers_reserved (xs : List Int) :
    ∀ b : Int64Builder, b.buffer.length + xs.length ≤ b.buffer.reserved →
      (b.integers xs).buffer.reserved = b.buffer.reserved := by
  induction xs with
  | nil => intro b _; rfl
  | cons x xs ih =>
    intro b hb
    simp only [List.length_cons] at hb
    have hr : (b.integer x).self.buffer.reserved = b.buffer.reserved :=
      GrowableBuffer.append_reserved b.buffer x (by unfold GrowableBuffer.reserved at hb; omega)
    have hl : (b.integer x).self.buffer.length = b.buffer.length + 1 := rfl
    show ((b.integer x).self.integers xs).buffer.reserved = _
    rw [ih (b.integer x).self (by rw [hr, hl]; omega), hr]

theorem Int64Builder.fromempty_reserved (options : ArrayBuilderOptions) :
    (Int64Builder.fromempty options).buffer.reserved = options.initial := by
  simp [Int64Builder.fromempty, GrowableBuffer.empty, GrowableBuffer.reserved]

theorem Int64Builder.fromempty_length (options : ArrayBuilderOptions) :
    (Int64Builder.fromempty options).buffer.length = 0 := rfl

theorem Int64Builder.fromempty_values (options : ArrayBuilderOptions) :
    (Int64Builder.fromempty options).buffer.values = [] := rfl

/-- Where the doubled loop stays inside the allocation, `complex` does what the
promotion to complex is meant to do. -/
theorem Int64Builder.complex_within (b : Int64Builder) (z : Complex128)
    (h : 2 * b.buffer.length ≤ b.buffer.reserved) :
    ∃ out cb, b.complex z = some out ∧ out.ret = .ok (some (.complex128 cb))
      ∧ cb.buffer.length = b.buffer.length + 1
      ∧ cb.buffer.values = b.buffer.values.map complex_of_int64 ++ [z] := by
  obtain ⟨cb, hcb, hl, hv, hw⟩ := Complex128Builder.fromint64_within b.options b.buffer h
  refine ⟨Outcome.mk { b with buffer := b.buffer.moved_from }
      (.ok (some (.complex128 (cb.complex z).self))), (cb.complex z).self,
    by simp only [Int64Builder.complex, hcb, Option.map_some'], rfl, ?_, ?_⟩
  · show (cb.buffer.append z).length = _
    rw [GrowableBuffer.append_length, hl]
  · show (cb.buffer.append z).values = _
    rw [GrowableBuffer.append_values _ _ hw, hv]

/-- The call `complex` is undefined as soon as the builder holds more integers
than half its capacity. -/
theorem Int64Builder.complex_overrun (b : Int64Builder) (z : Complex128)
    (h : b.buffer.reserved < 2 * b.buffer.length) : b.complex z = none := by
  simp only [Int64Builder.complex, Complex128Builder.fromint64_overrun b.options b.buffer h,
    Option.map_none']

/-! ## Statements about the numeric promotions -/

/-- C8, where the code departs from it: `complex(z)` on an `Int64Builder` is to
return a `Complex128Builder` holding the prior integers with zero imaginary
part followed by `z`. With the default options (initial capacity 1024, growth
factor 1.5) and 513 integers appended, the loop of
`Complex128Builder::fromint64`, which runs to `2*old.length()`, reads
`oldraw[1024]` and writes `newraw[1024]`, outside both allocations: the call
is undefined and no builder with those values is guaranteed. -/
theorem C8_complex_overruns_allocation (z : Complex128) :
    ((Int64Builder.fromempty { initial := 1024, resize := 3 / 2 }).integers
        (List.replicate 513 0)).buffer.values = List.replicate 513 0
    ∧ ((Int64Builder.fromempty { initial := 1024, resize := 3 / 2 }).integers
        (List.replicate 513 0)).complex z = none := by
  have hspec := Int64Builder.integers_spec (List.replicate 513 0)
    (Int64Builder.fromempty { initial := 1024, resize := 3 / 2 })
    (GrowableBuffer.empty_WF _)
  have hres := Int64Builder.integers_reserved (List.replicate 513 0)
    (Int64Builder.fromempty { initial := 1024, resize := 3 / 2 })
    (by
      rw [Int64Builder.fromempty_reserved, Int64Builder.fromempty_length,
        List.length_replicate]
      decide)
  refine ⟨by rw [hspec.2.1, Int64Builder.fromempty_values, List.nil_append], ?_⟩
  apply Int64Builder.complex_overrun
  rw [hres, hspec.2.2, Int64Builder.fromempty_reserved, Int64Builder.fromempty_length,
    List.length_replicate]
  decide

/-- C9: for an `Int64Builder` holding `v_0, ..., v_{n-1}` and a real `x`,
`real(x)` returns a replacement, a handle that is not null and not the
original builder, of float64 kind, of length `n+1`, with the values `v_i`
converted to reals followed by `x`. In particular integer 1, integer 2, real
3.5 on an empty builder give length 3 and the values `[1.0, 2.0, 3.5]`, the
first two calls returning no replacement. -/
theorem C9_real_promotes_to_float64 (b : Int64Builder) (hb : b.buffer.WF) (x : F64)
    (options : ArrayBuilderOptions) :
    (∃ fb : Float64Builder, (b.real x).ret = .ok (some (.float64 fb))
      ∧ Builder.float64 fb ≠ Builder.int64 b
      ∧ Builder.length (.float64 fb) = b.length + 1
      ∧ fb.buffer.values = b.buffer.values.map int64_to_double ++ [x])
    ∧ ((Int64Builder.fromempty options).integer 1).ret = .ok none
    ∧ (((Int64Builder.fromempty options).integer 1).self.integer 2).ret = .ok none
    ∧ ∃ fb : Float64Builder,
        ((((Int64Builder.fromempty options).integer 1).self.integer 2).self.real
            (F64.fin (7 / 2))).ret = .ok (some (.float64 fb))
        ∧ Builder.length (.float64 fb) = 3
        ∧ fb.buffer.values = [F64.fin 1, F64.fin 2, F64.fin (7 / 2)] := by
  have key : ∀ (b : Int64Builder), b.buffer.WF → ∀ x : F64,
      ((Float64Builder.fromint64 b.options b.buffer).real x).self.buffer.length
          = b.buffer.length + 1
        ∧ ((Float64Builder.fromint64 b.options b.buffer).real x).self.buffer.values
          = b.buffer.values.map int64_to_double ++ [x] := by
    intro b hb x
    have hw : (Float64Builder.fromint64 b.options b.buffer).buffer.WF := by
      unfold GrowableBuffer.WF at hb ⊢
      simp only [Float64Builder.fromint64, GrowableBuffer.set_length,
        GrowableBuffer.empty_reserved, GrowableBuffer.reserved, GrowableBuffer.values,
        List.length_append, List.length_map, List.length_take, List.length_drop,
        List.length_replicate]
      omega
    have hv : (Float64Builder.fromint64 b.options b.buffer).buffer.values
        = b.buffer.values.map int64_to_double := by
      unfold GrowableBuffer.WF at hb
      simp only [Float64Builder.fromint64, GrowableBuffer.set_length, GrowableBuffer.values]
      rw [List.take_left']
      simp only [List.length_map, List.length_take]
      omega
    refine ⟨rfl, ?_⟩
    show ((Float64Builder.fromint64 b.options b.buffer).buffer.append x).values = _
    rw [GrowableBuffer.append_values _ _ hw, hv]
  refine ⟨⟨_, rfl, fun h => Builder.noConfusion h, ?_, (key b hb x).2⟩, rfl, rfl, _, rfl, ?_, ?_⟩
  · show ((((Float64Builder.fromint64 b.options b.buffer).real x).self.buffer.length : Nat) : Int)
      = (b.buffer.length : Int) + 1
    rw [(key b hb x).1]
    push_cast
    rfl
  · rfl
  · have h2 := Int64Builder.integers_spec [1, 2] (Int64Builder.fromempty options)
      (GrowableBuffer.empty_WF _)
    have hk := (key ((Int64Builder.fromempty options).integers [1, 2]) h2.1 (F64.fin (7 / 2))).2
    rw [h2.2.1] at hk
    simp only [Int64Builder.fromempty, GrowableBuffer.empty_values, List.nil_append,
      List.map_cons, List.map_nil, List.cons_append] at hk
    have e1 : int64_to_double 1 = F64.fin 1 := by simp [int64_to_double]
    have e2 : int64_to_double 2 = F64.fin 2 := by simp [int64_to_double]
    rw [e1, e2] at hk
    exact hk

theorem C9_witness :
    (Int64Builder.fromempty { initial := 4, resize := 2 }).buffer.WF ∧
    ((∃ fb : Float64Builder,
        ((Int64Builder.fromempty { initial := 4, resize := 2 }).real (F64.fin 5)).ret
          = .ok (some (.float64 fb))
      ∧ Builder.float64 fb ≠ Builder.int64 (Int64Builder.fromempty { initial := 4, resize := 2 })
      ∧ Builder.length (.float64 fb)
          = (Int64Builder.fromempty { initial := 4, resize := 2 }).length + 1
      ∧ fb.buffer.values
          = (Int64Builder.fromempty { initial := 4, resize := 2 }).buffer.values.map
              int64_to_double ++ [F64.fin 5])
    ∧ ((Int64Builder.fromempty { initial := 0, resize := 1 }).integer 1).ret = .ok none
    ∧ (((Int64Builder.fromempty { initial := 0, resize := 1 }).integer 1).self.integer 2).ret
        = .ok none
    ∧ ∃ fb : Float64Builder,
        ((((Int64Builder.fromempty { initial := 0, resize := 1 }).integer 1).self.integer
            2).self.real (F64.fin (7 / 2))).ret = .ok (some (.float64 fb))
        ∧ Builder.length (.float64 fb) = 3
        ∧ fb.buffer.values = [F64.fin 1, F64.fin 2, F64.fin (7 / 2)]) :=
  ⟨GrowableBuffer.empty_WF _,
    C9_real_promotes_to_float64 (Int64Builder.fromempty { initial := 4, resize := 2 })
      (GrowableBuffer.empty_WF _) (F64.fin 5) { initial := 0, resize := 1 }⟩

/-- C10: for a float64 buffer holding `r_0, ..., r_{n-1}` with reserved
capacity `c >= n`, `Complex128Builder::fromfloat64` returns a complex builder
of length `n` whose `i`-th value is `(r_i, 0)` for every `i < n`, in a buffer of
reserved capacity `c`. -/
theorem C10_fromfloat64_embeds (options : ArrayBuilderOptions) (old : GrowableBuffer F64)
    (h : old.length ≤ old.reserved) :
    ∃ cb, Complex128Builder.fromfloat64 options old = some cb
      ∧ cb.length = (old.length : Int)
      ∧ cb.buffer.values.length = old.length
      ∧ (∀ (i : Nat) (r : F64), old.values[i]? = some r →
          cb.buffer.values[i]? = some { real := r, imag := F64.fin 0 })
      ∧ cb.buffer.reserved = old.reserved := by
  obtain ⟨cb, hcb, hl, hv, hr⟩ := Complex128Builder.fromfloat64_spec options old h
  refine ⟨cb, hcb, by simp [Complex128Builder.length, hl], ?_, ?_, hr⟩
  · rw [hv, List.length_map]
    simp only [GrowableBuffer.values, List.length_take]
    unfold GrowableBuffer.reserved at h
    omega
  · intro i r hi
    rw [hv, List.getElem?_map, hi]
    rfl

theorem C10_witness :
    ex_float_buffer.length ≤ ex_float_buffer.reserved ∧
    ∃ cb, Complex128Builder.fromfloat64 { initial := 3, resize := 2 } ex_float_buffer = some cb
      ∧ cb.length = (ex_float_buffer.length : Int)
      ∧ cb.buffer.values.length = ex_float_buffer.length
      ∧ (∀ (i : Nat) (r : F64), ex_float_buffer.values[i]? = some r →
          cb.buffer.values[i]? = some { real := r, imag := F64.fin 0 })
      ∧ cb.buffer.reserved = ex_float_buffer.reserved :=
  ⟨by decide, C10_fromfloat64_embeds { initial := 3, resize := 2 } ex_float_buffer (by decide)⟩

/-! ## Statements about appends of the builder's own kind -/

/-- C11: for an `Int64Builder` holding `v_0, ..., v_{n-1}` and an integer `x`,
`integer(x)` returns no replacement (the null handle) and leaves the builder
with length `n+1` and the values `v_0, ..., v_{n-1}, x`; consequently the
integer appends `xs` on an empty builder give length `|xs|` and the values
`xs`, in call order. -/
theorem C11_integer_appends_in_place (b : Int64Builder) (hb : b.buffer.WF) (x : Int)
    (options : ArrayBuilderOptions) (xs : List Int) :
    (b.integer x).ret = .ok none
    ∧ (b.integer x).self.length = b.length + 1
    ∧ (b.integer x).self.buffer.values = b.buffer.values ++ [x]
    ∧ ((Int64Builder.fromempty options).integers xs).length = (xs.length : Int)
    ∧ ((Int64Builder.fromempty options).integers xs).buffer.values = xs := by
  have hspec := Int64Builder.integers_spec xs (Int64Builder.fromempty options)
    (GrowableBuffer.empty_WF _)
  refine ⟨rfl, ?_, GrowableBuffer.append_values b.buffer x hb, ?_, ?_⟩
  · show (((b.buffer.append x).length : Nat) : Int) = (b.buffer.length : Int) + 1
    rw [GrowableBuffer.append_length]
    push_cast
    rfl
  · show ((((Int64Builder.fromempty options).integers xs).buffer.length : Nat) : Int) = _
    rw [hspec.2.2, Int64Builder.fromempty_length, Nat.zero_add]
  · rw [hspec.2.1, Int64Builder.fromempty_values, List.nil_append]

theorem C11_witness :
    (Int64Builder.fromempty { initial := 1, resize := 3 / 2 }).buffer.WF ∧
    (((Int64Builder.fromempty { initial := 1, resize := 3 / 2 }).integer 7).ret = .ok none
    ∧ ((Int64Builder.fromempty { initial := 1, resize := 3 / 2 }).integer 7).self.length
        = (Int64Builder.fromempty { initial := 1, resize := 3 / 2 }).length + 1
    ∧ ((Int64Builder.fromempty { initial := 1, resize := 3 / 2 }).integer 7).self.buffer.values
        = (Int64Builder.fromempty { initial := 1, resize := 3 / 2 }).buffer.values ++ [7]
    ∧ ((Int64Builder.fromempty { initial := 1, resize := 3 / 2 }).integers [4, 5, 6]).length
        = (([4, 5, 6] : List Int).length : Int)
    ∧ ((Int64Builder.fromempty { initial := 1, resize := 3 / 2 }).integers
        [4, 5, 6]).buffer.values = [4, 5, 6]) :=
  ⟨GrowableBuffer.empty_WF _,
    C11_integer_appends_in_place (Int64Builder.fromempty { initial := 1, resize := 3 / 2 })
      (GrowableBuffer.empty_WF _) 7 { initial := 1, resize := 3 / 2 } [4, 5, 6]⟩

/-- C12: a `Complex128Builder` is never replaced by a numeric append. In every
state and for every argument, `integer(x)`, `real(x)` and `complex(z)` return
no replacement, increase the length by exactly one, keep the prior values and
append `(x as a real, 0)`, `(x, 0)` and `z` respectively. -/
theorem C12_complex128_absorbs_numbers (b : Complex128Builder) (hb : b.buffer.WF)
    (x : Int) (r : F64) (z : Complex128) :
    ((b.integer x).ret = .ok none
      ∧ (b.integer x).self.length = b.length + 1
      ∧ (b.integer x).self.buffer.values
          = b.buffer.values ++ [{ real := int64_to_double x, imag := F64.fin 0 }])
    ∧ ((b.real r).ret = .ok none
      ∧ (b.real r).self.length = b.length + 1
      ∧ (b.real r).self.buffer.values = b.buffer.values ++ [{ real := r, imag := F64.fin 0 }])
    ∧ ((b.complex z).ret = .ok none
      ∧ (b.complex z).self.length = b.length + 1
      ∧ (b.complex z).self.buffer.values = b.buffer.values ++ [z]) := by
  have hlen : ∀ v : Complex128,
      (((b.buffer.append v).length : Nat) : Int) = (b.buffer.length : Int) + 1 := by
    intro v
    rw [GrowableBuffer.append_length]
    push_cast
    rfl
  exact ⟨⟨rfl, hlen _, GrowableBuffer.append_values b.buffer _ hb⟩,
    ⟨rfl, hlen _, GrowableBuffer.append_values b.buffer _ hb⟩,
    ⟨rfl, hlen _, GrowableBuffer.append_values b.buffer _ hb⟩⟩

theorem ex_complex_builder_WF : ex_complex_builder.buffer.WF :=
  GrowableBuffer.append_WF _ _ (GrowableBuffer.empty_WF _)

theorem C12_witness :
    ex_complex_builder.buffer.WF ∧
    (((ex_complex_builder.integer 3).ret = .ok none
      ∧ (ex_complex_builder.integer 3).self.length = ex_complex_builder.length + 1
      ∧ (ex_complex_builder.integer 3).self.buffer.values
          = ex_complex_builder.buffer.values
              ++ [{ real := int64_to_double 3, imag := F64.fin 0 }])
    ∧ ((ex_complex_builder.real F64.nan).ret = .ok none
      ∧ (ex_complex_builder.real F64.nan).self.length = ex_complex_builder.length + 1
      ∧ (ex_complex_builder.real F64.nan).self.buffer.values
          = ex_complex_builder.buffer.values ++ [{ real := F64.nan, imag := F64.fin 0 }])
    ∧ ((ex_complex_builder.complex { real := F64.pinf, imag := F64.fin 1 }).ret = .ok none
      ∧ (ex_complex_builder.complex { real := F64.pinf, imag := F64.fin 1 }).self.length
          = ex_complex_builder.length + 1
      ∧ (ex_complex_builder.complex { real := F64.pinf, imag := F64.fin 1 }).self.buffer.values
          = ex_complex_builder.buffer.values ++ [{ real := F64.pinf, imag := F64.fin 1 }])) :=
  ⟨ex_complex_builder_WF,
    C12_complex128_absorbs_numbers ex_complex_builder ex_complex_builder_WF 3 F64.nan
      { real := F64.pinf, imag := F64.fin 1 }⟩

/-! ## Statements about protocol errors -/

/-- C13: on an `Int64Builder` in any state and for any arguments, each of
`end_list`, `index`, `end_tuple`, `field` and `end_record` throws
`std::invalid_argument`: none returns a builder or returns normally. -/
theorem C13_int64_closers_throw (F : String → Nat → String) (b : Int64Builder)
    (i : Int) (key : String) (check : Bool) :
    (∃ what, (Int64Builder.endlist F b).ret = .error (.invalid_argument what))
    ∧ (∃ what, (Int64Builder.index F b i).ret = .error (.invalid_argument what))
    ∧ (∃ what, (Int64Builder.endtuple F b).ret = .error (.invalid_argument what))
    ∧ (∃ what, (Int64Builder.field F b key check).ret = .error (.invalid_argument what))
    ∧ (∃ what, (Int64Builder.endrecord F b).ret = .error (.invalid_argument what)) :=
  ⟨⟨_, rfl⟩, ⟨_, rfl⟩, ⟨_, rfl⟩, ⟨_, rfl⟩, ⟨_, rfl⟩⟩

/-- C14, where the code departs from it: `end_record` on a `Complex128Builder`,
which is never in an open-record state, is to fail with a protocol error as it
does on an `Int64Builder`. `Complex128Builder::endrecord` returns the builder
itself (`return shared_from_this();`) and throws nothing. -/
theorem C14_complex128_endrecord_returns_self (b : Complex128Builder) :
    (Complex128Builder.endrecord b).ret = .ok (some (.complex128 b))
    ∧ (Complex128Builder.endrecord b).self = b
    ∧ ∀ F : String → Nat → String, ∀ ib : Int64Builder,
        ∃ what, (Int64Builder.endrecord F ib).ret = .error (.invalid_argument what) :=
  ⟨rfl, rfl, fun _ _ => ⟨_, rfl⟩⟩

/-- C15: on a `Complex128Builder` in any state and for any arguments, each of
`end_list`, `index`, `end_tuple` and `field` throws `std::invalid_argument`. -/
theorem C15_complex128_closers_throw (F : String → Nat → String) (b : Complex128Builder)
    (i : Int) (key : String) (check : Bool) :
    (∃ what, (Complex128Builder.endlist F b).ret = .error (.invalid_argument what))
    ∧ (∃ what, (Complex128Builder.index F b i).ret = .error (.invalid_argument what))
    ∧ (∃ what, (Complex128Builder.endtuple F b).ret = .error (.invalid_argument what))
    ∧ (∃ what, (Complex128Builder.field F b key check).ret
        = .error (.invalid_argument what)) :=
  ⟨⟨_, rfl⟩, ⟨_, rfl⟩, ⟨_, rfl⟩, ⟨_, rfl⟩⟩

/-- C16: a protocol error does not corrupt the builder. For every
`Int64Builder` state, after a failing `end_list`, `index`, `end_tuple`, `field`
or `end_record` the buffer has the same length and the same values as before
the call, and a following `integer(x)` appends `x` exactly as it would have
without the failed call. -/
theorem C16_int64_errors_leave_builder (F : String → Nat → String) (b : Int64Builder)
    (i : Int) (key : String) (check : Bool) (x : Int) :
    ∀ s ∈ [(Int64Builder.endlist F b).self, (Int64Builder.index F b i).self,
        (Int64Builder.endtuple F b).self, (Int64Builder.field F b key check).self,
        (Int64Builder.endrecord F b).self],
      s.buffer.length = b.buffer.length ∧ s.buffer.values = b.buffer.values
        ∧ (s.integer x).ret = (b.integer x).ret
        ∧ (s.integer x).self = (b.integer x).self := by
  intro s hs
  have : s = b := by
    simp only [List.mem_cons, List.mem_singleton, List.not_mem_nil, or_false] at hs
    rcases hs with h | h | h | h | h <;> exact h
  subst this
  exact ⟨rfl, rfl, rfl, rfl⟩

theorem C16_witness :
    (Int64Builder.endtuple (fun _ _ => "") (Int64Builder.fromempty { initial := 2, resize := 2 })).self
      ∈ [(Int64Builder.endlist (fun _ _ => "")
            (Int64Builder.fromempty { initial := 2, resize := 2 })).self,
          (Int64Builder.index (fun _ _ => "")
            (Int64Builder.fromempty { initial := 2, resize := 2 }) 0).self,
          (Int64Builder.endtuple (fun _ _ => "")
            (Int64Builder.fromempty { initial := 2, resize := 2 })).self,
          (Int64Builder.field (fun _ _ => "")
            (Int64Builder.fromempty { initial := 2, resize := 2 }) "k" true).self,
          (Int64Builder.endrecord (fun _ _ => "")
            (Int64Builder.fromempty { initial := 2, resize := 2 })).self]
    ∧ ((Int64Builder.endtuple (fun _ _ => "")
          (Int64Builder.fromempty { initial := 2, resize := 2 })).self.integer 9).self
        = ((Int64Builder.fromempty { initial := 2, resize := 2 }).integer 9).self :=
  ⟨by simp,
    (C16_int64_errors_leave_builder (fun _ _ => "")
      (Int64Builder.fromempty { initial := 2, resize := 2 }) 0 "k" true 9 _ (by simp)).2.2.2⟩

theorem occurs_in_append {t lit : String} (rest : String) (h : occurs_in t lit) :
    occurs_in t (lit ++ rest) := by
  obtain ⟨a, b, hab⟩ := h
  exact ⟨a, b ++ rest, by rw [hab, String.append_assoc]⟩

/-- Two texts that differ in their first `k` characters still differ after
anything is appended to them. -/
theorem append_ne_of_take_ne (m1 m2 f1 f2 : String) (k : Nat) (h1 : k ≤ m1.data.length)
    (h2 : k ≤ m2.data.length) (hne : m1.data.take k ≠ m2.data.take k) :
    m1 ++ f1 ≠ m2 ++ f2 := by
  intro h
  apply hne
  have hd : (m1 ++ f1).data = (m2 ++ f2).data := by rw [h]
  rw [String.data_append, String.data_append] at hd
  have := congrArg (List.take k) hd
  rwa [List.take_append_of_le_length h1, List.take_append_of_le_length h2] at this

/-- C17: every protocol error raised by `Int64Builder` or `Complex128Builder`
carries a message that names the violated call pair: it contains the called
operation and its missing opener (`end_list` with `begin_list`, `index` with
`begin_tuple`, `end_tuple` with `begin_tuple`, `field` with `begin_record`,
`end_record` with `begin_record`), and the messages of different operations
differ. -/
theorem C17_messages_name_call_pair (F : String → Nat → String) (b : Int64Builder)
    (c : Complex128Builder) (i : Int) (key : String) (check : Bool) :
    (names_pair (Int64Builder.endlist F b) "end_list" "begin_list"
      ∧ names_pair (Int64Builder.index F b i) "index" "begin_tuple"
      ∧ names_pair (Int64Builder.endtuple F b) "end_tuple" "begin_tuple"
      ∧ names_pair (Int64Builder.field F b key check) "field" "begin_record"
      ∧ names_pair (Int64Builder.endrecord F b) "end_record" "begin_record")
    ∧ (names_pair (Complex128Builder.endlist F c) "end_list" "begin_list"
      ∧ names_pair (Complex128Builder.index F c i) "index" "begin_tuple"
      ∧ names_pair (Complex128Builder.endtuple F c) "end_tuple" "begin_tuple"
      ∧ names_pair (Complex128Builder.field F c key check) "field" "begin_record")
    ∧ [(Int64Builder.endlist F b).what, (Int64Builder.index F b i).what,
        (Int64Builder.endtuple F b).what, (Int64Builder.field F b key check).what,
        (Int64Builder.endrecord F b).what].Pairwise (fun m1 m2 => m1 ≠ m2)
    ∧ [(Complex128Builder.endlist F c).what, (Complex128Builder.index F c i).what,
        (Complex128Builder.endtuple F c).what,
        (Complex128Builder.field F c key check).what].Pairwise (fun m1 m2 => m1 ≠ m2) := by
  have hl1 : occurs_in "end_list"
      "called 'end_list' without 'begin_list' at the same level before it" :=
    ⟨"called '", "' without 'begin_list' at the same level before it", by decide⟩
  have hl2 : occurs_in "begin_list"
      "called 'end_list' without 'begin_list' at the same level before it" :=
    ⟨"called 'end_list' without '", "' at the same level before it", by decide⟩
  have hi1 : occurs_in "index"
      "called 'index' without 'begin_tuple' at the same level before it" :=
    ⟨"called '", "' without 'begin_tuple' at the same level before it", by decide⟩
  have hi2 : occurs_in "begin_tuple"
      "called 'index' without 'begin_tuple' at the same level before it" :=
    ⟨"called 'index' without '", "' at the same level before it", by decide⟩
  have ht1 : occurs_in "end_tuple"
      "called 'end_tuple' without 'begin_tuple' at the same level before it" :=
    ⟨"called '", "' without 'begin_tuple' at the same level before it", by decide⟩
  have ht2 : occurs_in "begin_tuple"
      "called 'end_tuple' without 'begin_tuple' at the same level before it" :=
    ⟨"called 'end_tuple' without '", "' at the same level before it", by decide⟩
  have hf1 : occurs_in "field"
      "called 'field' without 'begin_record' at the same level before it" :=
    ⟨"called '", "' without 'begin_record' at the same level before it", by decide⟩
  have hf2 : occurs_in "begin_record"
      "called 'field' without 'begin_record' at the same level before it" :=
    ⟨"called 'field' without '", "' at the same level before it", by decide⟩
  have hr1 : occurs_in "end_record"
      "called 'end_record' without 'begin_record' at the same level before it" :=
    ⟨"called '", "' without 'begin_record' at the same level before it", by decide⟩
  have hr2 : occurs_in "begin_record"
      "called 'end_record' without 'begin_record' at the same level before it" :=
    ⟨"called 'end_record' without '", "' at the same level before it", by decide⟩
  have hne : ∀ (m1 m2 f1 f2 : String), 13 ≤ m1.data.length → 13 ≤ m2.data.length →
      m1.data.take 13 ≠ m2.data.take 13 → some (m1 ++ f1) ≠ some (m2 ++ f2) := by
    intro m1 m2 f1 f2 h1 h2 h3 h
    exact append_ne_of_take_ne m1 m2 f1 f2 13 h1 h2 h3 (Option.some.inj h)
  refine ⟨⟨⟨_, rfl, occurs_in_append _ hl1, occurs_in_append _ hl2⟩,
      ⟨_, rfl, occurs_in_append _ hi1, occurs_in_append _ hi2⟩,
      ⟨_, rfl, occurs_in_append _ ht1, occurs_in_append _ ht2⟩,
      ⟨_, rfl, occurs_in_append _ hf1, occurs_in_append _ hf2⟩,
      ⟨_, rfl, occurs_in_append _ hr1, occurs_in_append _ hr2⟩⟩,
    ⟨⟨_, rfl, occurs_in_append _ hl1, occurs_in_append _ hl2⟩,
      ⟨_, rfl, occurs_in_append _ hi1, occurs_in_append _ hi2⟩,
      ⟨_, rfl, occurs_in_append _ ht1, occurs_in_append _ ht2⟩,
      ⟨_, rfl, occurs_in_append _ hf1, occurs_in_append _ hf2⟩⟩, ?_, ?_⟩
  · simp only [List.pairwise_cons, List.mem_cons, List.mem_singleton, List.not_mem_nil,
      forall_eq_or_imp, forall_eq, IsEmpty.forall_iff, implies_true, List.Pairwise.nil,
      and_true, or_false]
    refine ⟨⟨?_, ?_, ?_, ?_⟩, ⟨?_, ?_, ?_⟩, ⟨?_, ?_⟩, ?_⟩ <;>
      exact hne _ _ _ _ (by decide) (by decide) (by decide)
  · simp only [List.pairwise_cons, List.mem_cons, List.mem_singleton, List.not_mem_nil,
      forall_eq_or_imp, forall_eq, IsEmpty.forall_iff, implies_true, List.Pairwise.nil,
      and_true, or_false]
    refine ⟨⟨?_, ?_, ?_⟩, ⟨?_, ?_⟩, ?_⟩ <;>
      exact hne _ _ _ _ (by decide) (by decide) (by decide)

/-! ## Statements about the wrappers -/

theorem fromsingle_call (options : ArrayBuilderOptions) (first : Builder) (c : Call) :
    UnionBuilder.call c (UnionBuilder.fromsingle options first)
      = promoted_union options first first.length.toNat c := rfl

/-- C18: for every `Int64Builder` or `Complex128Builder` state, `null()`
returns a replacement (a handle that is not null) that is an option builder
whose content is the current builder itself, not a promoted copy, in which all
prior elements are valid and the null is appended; the current builder keeps
its buffer, with the same length and values. -/
theorem C18_null_wraps_current_builder (b : Int64Builder) (c : Complex128Builder) :
    (b.null.ret = .ok (some (.option b.options
          ((List.range b.buffer.length).map Int.ofNat ++ [-1]) (.int64 b)))
      ∧ b.null.self = b
      ∧ b.null.self.buffer.length = b.buffer.length
      ∧ b.null.self.buffer.values = b.buffer.values)
    ∧ (c.null.ret = .ok (some (.option c.options
          ((List.range c.buffer.length).map Int.ofNat ++ [-1]) (.complex128 c)))
      ∧ c.null.self = c
      ∧ c.null.self.buffer.length = c.buffer.length
      ∧ c.null.self.buffer.values = c.buffer.values) :=
  ⟨⟨rfl, rfl, rfl, rfl⟩, ⟨rfl, rfl, rfl, rfl⟩⟩

/-- C19: for every `Int64Builder` state, each structurally different append
(`boolean`, `datetime`, `timedelta`, `string`, `begin_list`, `begin_tuple`,
`begin_record`) returns a replacement (a handle that is not null) that is a
union builder whose first branch is the current builder and to which that
same call is forwarded with the same arguments, and leaves the integer
buffer unchanged; `Complex128Builder` behaves the same for the same seven
calls. -/
theorem C19_structural_append_wraps_in_union (b : Int64Builder) (c : Complex128Builder)
    (x : Bool) (t : Int) (unit : String) (str : String) (len : Int) (encoding : String)
    (numfields : Int) (name : String) (check : Bool) :
    (∀ o ∈ [(b.boolean x, Call.boolean x), (b.datetime t unit, Call.datetime t unit),
          (b.timedelta t unit, Call.timedelta t unit),
          (b.string str len encoding, Call.string str len encoding),
          (b.beginlist, Call.beginlist), (b.begintuple numfields, Call.begintuple numfields),
          (b.beginrecord name check, Call.beginrecord name check)],
      o.1.ret = .ok (some (promoted_union b.options (.int64 b) b.buffer.length o.2))
        ∧ o.1.self = b)
    ∧ (∀ o ∈ [(c.boolean x, Call.boolean x), (c.datetime t unit, Call.datetime t unit),
          (c.timedelta t unit, Call.timedelta t unit),
          (c.string str len encoding, Call.string str len encoding),
          (c.beginlist, Call.beginlist), (c.begintuple numfields, Call.begintuple numfields),
          (c.beginrecord name check, Call.beginrecord name check)],
      o.1.ret = .ok (some (promoted_union c.options (.complex128 c) c.buffer.length o.2))
        ∧ o.1.self = c) := by
  constructor
  · intro o ho
    simp only [List.mem_cons, List.mem_singleton, List.not_mem_nil, or_false] at ho
    rcases ho with h | h | h | h | h | h | h <;> subst h <;> exact ⟨rfl, rfl⟩
  · intro o ho
    simp only [List.mem_cons, List.mem_singleton, List.not_mem_nil, or_false] at ho
    rcases ho with h | h | h | h | h | h | h <;> subst h <;> exact ⟨rfl, rfl⟩

theorem int64_wrap_of_range (x : Int) (h1 : -2 ^ 63 ≤ x) (h2 : x < 2 ^ 63) :
    int64_wrap x = x := by
  unfold int64_wrap
  have e63 : (2 : Int) ^ 63 = 9223372036854775808 := by norm_num
  have e64 : (2 : Int) ^ 64 = 18446744073709551616 := by norm_num
  rw [e63] at h1 h2
  rw [e63, e64]
  omega

theorem int64_wrap_succ (k : Nat) (hk : k < 2 ^ 63 - 1) :
    int64_wrap ((k : Int) + 1) = (k : Int) + 1 := by
  have e63 : (2 : Nat) ^ 63 = 9223372036854775808 := by norm_num
  have e63i : (2 : Int) ^ 63 = 9223372036854775808 := by norm_num
  rw [e63] at hk
  apply int64_wrap_of_range
  · rw [e63i]; omega
  · rw [e63i]; omega

/-- C20, as the code has it: for every `Int64Builder` or `Complex128Builder`
state and every counter value `k` with `0 <= k < 2^63 - 1`, so that `k + 1` is
an `int64_t` value, `to_buffers` writes exactly one buffer, named
`"node" + decimal(k) + "-data"`, leaves the shared counter at exactly `k+1`,
returns a schema fragment whose form_key is `"node" + decimal(k)` and whose
primitive is `"int64"` (respectively `"complex128"`), and does not change the
builder's buffer. -/
theorem C20_to_buffers_one_named_buffer (b : Int64Builder) (c : Complex128Builder)
    (container : BuffersContainer) (k : Nat) (hk : k < 2 ^ 63 - 1) :
    (∃ r buf, (b.to_buffers container k).ret = .ok r
      ∧ r.container = container ++ [buf]
      ∧ buf.name = "node" ++ toString k ++ "-data"
      ∧ r.form_key_id = (k : Int) + 1
      ∧ r.form = "\x7b\"class\": \"NumpyArray\", \"primitive\": \"int64\", \"form_key\": \""
          ++ ("node" ++ toString k) ++ "\"\x7d"
      ∧ (b.to_buffers container k).self = b)
    ∧ (∃ r buf, (c.to_buffers container k).ret = .ok r
      ∧ r.container = container ++ [buf]
      ∧ buf.name = "node" ++ toString k ++ "-data"
      ∧ r.form_key_id = (k : Int) + 1
      ∧ r.form
          = "\x7b\"class\": \"NumpyArray\", \"primitive\": \"complex128\", \"form_key\": \""
            ++ ("node" ++ toString k) ++ "\"\x7d"
      ∧ (c.to_buffers container k).self = c) :=
  ⟨⟨_, _, rfl, rfl, rfl, int64_wrap_succ k hk, rfl, rfl⟩,
    ⟨_, _, rfl, rfl, rfl, int64_wrap_succ k hk, rfl, rfl⟩⟩

theorem C20_witness :
    9223372036854775806 < 2 ^ 63 - 1 ∧
    ((∃ r buf, ((Int64Builder.fromempty { initial := 2, resize := 2 }).to_buffers []
          ((9223372036854775806 : Nat) : Int)).ret = .ok r
      ∧ r.container = [] ++ [buf]
      ∧ buf.name = "node" ++ toString 9223372036854775806 ++ "-data"
      ∧ r.form_key_id = ((9223372036854775806 : Nat) : Int) + 1
      ∧ r.form = "\x7b\"class\": \"NumpyArray\", \"primitive\": \"int64\", \"form_key\": \""
          ++ ("node" ++ toString 9223372036854775806) ++ "\"\x7d"
      ∧ ((Int64Builder.fromempty { initial := 2, resize := 2 }).to_buffers []
          ((9223372036854775806 : Nat) : Int)).self
        = Int64Builder.fromempty { initial := 2, resize := 2 })
    ∧ (∃ r buf, (ex_complex_builder.to_buffers [] ((9223372036854775806 : Nat) : Int)).ret
        = .ok r
      ∧ r.container = [] ++ [buf]
      ∧ buf.name = "node" ++ toString 9223372036854775806 ++ "-data"
      ∧ r.form_key_id = ((9223372036854775806 : Nat) : Int) + 1
      ∧ r.form
          = "\x7b\"class\": \"NumpyArray\", \"primitive\": \"complex128\", \"form_key\": \""
            ++ ("node" ++ toString 9223372036854775806) ++ "\"\x7d"
      ∧ (ex_complex_builder.to_buffers [] ((9223372036854775806 : Nat) : Int)).self
        = ex_complex_builder)) :=
  ⟨by decide,
    C20_to_buffers_one_named_buffer (Int64Builder.fromempty { initial := 2, resize := 2 })
      ex_complex_builder [] 9223372036854775806 (by decide)⟩

/-- C20 as stated fails at the counter value `k = 2^63 - 1`, the largest
`int64_t`: `form_key_id++` overflows and the counter is left at `-2^63`, not at
`k + 1 = 2^63`. -/
theorem C20_counter_overflows :
    ∃ r, ((Int64Builder.fromempty { initial := 2, resize := 2 }).to_buffers []
          ((9223372036854775807 : Nat) : Int)).ret = .ok r
      ∧ r.form_key_id = -9223372036854775808
      ∧ r.form_key_id ≠ ((9223372036854775807 : Nat) : Int) + 1 :=
  ⟨_, rfl, by decide, by decide⟩

theorem C19_witness :
    (ex_complex_builder.beginlist, Call.beginlist)
      ∈ [(ex_complex_builder.boolean true, Call.boolean true),
          (ex_complex_builder.datetime 5 "s", Call.datetime 5 "s"),
          (ex_complex_builder.timedelta 5 "s", Call.timedelta 5 "s"),
          (ex_complex_builder.string "ab" 2 "utf-8", Call.string "ab" 2 "utf-8"),
          (ex_complex_builder.beginlist, Call.beginlist),
          (ex_complex_builder.begintuple 2, Call.begintuple 2),
          (ex_complex_builder.beginrecord "r" false, Call.beginrecord "r" false)]
    ∧ ex_complex_builder.beginlist.ret
        = .ok (some (promoted_union ex_complex_builder.options (.complex128 ex_complex_builder)
            ex_complex_builder.buffer.length Call.beginlist))
    ∧ ex_complex_builder.beginlist.self = ex_complex_builder :=
  ⟨by simp,
    (C19_structural_append_wraps_in_union
      (Int64Builder.fromempty { initial := 2, resize := 2 }) ex_complex_builder true 5 "s" "ab"
      2 "utf-8" 2 "r" false).2 (ex_complex_builder.beginlist, Call.beginlist) (by simp)⟩

/-! ## Statements about the byte counts -/

theorem size_t_bytes (n : Nat) (h : 16 * n < 2 ^ 63) :
    size_t_to_int64 (size_t_mul n 8) = ((8 * n : Nat) : Int) := by
  have h64 : (2 : Nat) ^ 64 = 2 * 2 ^ 63 := by norm_num
  have h1 : n * 8 % 2 ^ 64 = 8 * n := by
    rw [Nat.mod_eq_of_lt (by omega)]
    omega
  unfold size_t_to_int64 size_t_mul
  rw [Nat.mod_mod, h1, if_pos (by omega)]

/-- C21: the byte count handed over by `to_buffers` matches the element
encoding. For every builder length `n` with `16*n < 2^63` it is exactly `8*n`
for an `Int64Builder` and exactly `16*n` for a `Complex128Builder`, and the
elements handed over are the `n` values of the builder. -/
theorem C21_to_buffers_byte_count (b : Int64Builder) (c : Complex128Builder)
    (container : BuffersContainer) (k : Int)
    (hb : 16 * b.buffer.length < 2 ^ 63) (hc : 16 * c.buffer.length < 2 ^ 63) :
    (∃ r buf, (b.to_buffers container k).ret = .ok r ∧ r.container = container ++ [buf]
      ∧ buf.num_bytes = 8 * (b.buffer.length : Int)
      ∧ buf.data = .int64 b.buffer.values)
    ∧ (∃ r buf, (c.to_buffers container k).ret = .ok r ∧ r.container = container ++ [buf]
      ∧ buf.num_bytes = 16 * (c.buffer.length : Int)
      ∧ buf.data = .complex128 c.buffer.values) := by
  have hwrap : int64_wrap (((8 * c.buffer.length : Nat) : Int) * 2)
      = ((8 * c.buffer.length : Nat) : Int) * 2 := by
    have e63 : (2 : Nat) ^ 63 = 9223372036854775808 := by norm_num
    have e63i : (2 : Int) ^ 63 = 9223372036854775808 := by norm_num
    rw [e63] at hc
    apply int64_wrap_of_range
    · rw [e63i]; omega
    · rw [e63i]; omega
  refine ⟨⟨_, _, rfl, rfl, ?_, ?_⟩, ⟨_, _, rfl, rfl, ?_, ?_⟩⟩
  · show size_t_to_int64 (size_t_mul b.buffer.length 8) = _
    rw [size_t_bytes _ hb]
    push_cast
    rfl
  · show BufferData.int64 (b.buffer.ptr.take
      ((size_t_to_int64 (size_t_mul b.buffer.length 8)).toNat / 8)) = _
    rw [size_t_bytes _ hb, Int.toNat_ofNat, Nat.mul_div_cancel_left _ (by decide)]
    rfl
  · show int64_wrap (size_t_to_int64 (size_t_mul c.buffer.length 8) * 2) = _
    rw [size_t_bytes _ hc, hwrap]
    push_cast
    ring
  · show BufferData.complex128 (c.buffer.ptr.take
      ((int64_wrap (size_t_to_int64 (size_t_mul c.buffer.length 8) * 2)).toNat / 16)) = _
    rw [size_t_bytes _ hc, hwrap]
    have e : (((8 * c.buffer.length : Nat) : Int) * 2).toNat = 16 * c.buffer.length := by
      omega
    rw [e, Nat.mul_div_cancel_left _ (by decide)]
    rfl

theorem C21_witness :
    16 * (Int64Builder.fromempty { initial := 2, resize := 2 }).buffer.length < 2 ^ 63
    ∧ 16 * ex_complex_builder.buffer.length < 2 ^ 63
    ∧ (∃ r buf, ((Int64Builder.fromempty { initial := 2, resize := 2 }).to_buffers [] 0).ret
          = .ok r ∧ r.container = [] ++ [buf]
        ∧ buf.num_bytes
          = 8 * ((Int64Builder.fromempty { initial := 2, resize := 2 }).buffer.length : Int)
        ∧ buf.data
          = .int64 (Int64Builder.fromempty { initial := 2, resize := 2 }).buffer.values)
    ∧ (∃ r buf, (ex_complex_builder.to_buffers [] 0).ret = .ok r ∧ r.container = [] ++ [buf]
        ∧ buf.num_bytes = 16 * (ex_complex_builder.buffer.length : Int)
        ∧ buf.data = .complex128 ex_complex_builder.buffer.values) :=
  ⟨by decide, by decide,
    C21_to_buffers_byte_count (Int64Builder.fromempty { initial := 2, resize := 2 })
      ex_complex_builder [] 0 (by decide) (by decide)⟩

/-! ## Statements about the conversion loop -/

/-- C26, where the code departs from it: `Complex128Builder::fromint64` is to
touch the old and the new buffer only at indices `i < n`, as `fromfloat64` does.
Its loop runs to `2*old.length()`. On a buffer of length 1 and capacity 2 whose
cells are `[7, 9]` (the state after `integer(7)`, `integer(9)`, `clear()`,
`integer(7)` with initial capacity 2) it reads `oldraw[1]` and writes `newraw[1] = (9, 0)`, outside
the logical range, where `fromfloat64` leaves the cell untouched; on a buffer of
length 1 and capacity 1 it reads `oldraw[1]` and writes `newraw[1]` outside the
allocations, and the call is undefined, where `fromfloat64` succeeds. -/
theorem C26_fromint64_touches_beyond_length :
    (((((Int64Builder.fromempty { initial := 2, resize := 2 }).integer 7).self.integer
        9).self.clear.integer 7).self.buffer
      = { options := { initial := 2, resize := 2 }, ptr := [7, 9], length := 1 })
    ∧ (Complex128Builder.fromint64 { initial := 2, resize := 2 }
        { options := { initial := 2, resize := 2 }, ptr := [7, 9], length := 1 }).map
          (fun cb => cb.buffer.ptr)
      = some [{ real := F64.fin 7, imag := F64.fin 0 }, { real := F64.fin 9, imag := F64.fin 0 }]
    ∧ (Complex128Builder.fromfloat64 { initial := 2, resize := 2 }
        { options := { initial := 2, resize := 2 }, ptr := [F64.fin 7, F64.fin 9],
          length := 1 }).map (fun cb => cb.buffer.ptr)
      = some [{ real := F64.fin 7, imag := F64.fin 0 }, default]
    ∧ Complex128Builder.fromint64 { initial := 1, resize := 2 }
        { options := { initial := 1, resize := 2 }, ptr := [7], length := 1 } = none
    ∧ (Complex128Builder.fromfloat64 { initial := 1, resize := 2 }
        { options := { initial := 1, resize := 2 }, ptr := [F64.fin 7], length := 1 }).map
          (fun cb => cb.buffer.ptr)
      = some [{ real := F64.fin 7, imag := F64.fin 0 }] := by
  refine ⟨by decide, by decide, by decide, ?_, by decide⟩
  exact Complex128Builder.fromint64_overrun _ _ (by decide)

/-! ## Statements about the comparators -/

theorem incomp_trans_of_cotrans {α : Type} (cmp : α → α → Bool)
    (hco : ∀ a b c, cmp a c = true → cmp a b = true ∨ cmp b c = true) (a b c : α)
    (h1 : cmp a b = false) (h2 : cmp b a = false) (h3 : cmp b c = false)
    (h4 : cmp c b = false) : cmp a c = false ∧ cmp c a = false := by
  constructor
  · by_contra h
    rcases hco a b c (by simpa using h) with h' | h' <;> simp_all
  · by_contra h
    rcases hco c b a (by simpa using h) with h' | h' <;> simp_all

/-- C27: each of the two comparators of the kernel is a strict weak ordering
on floating-point values, NaN included: it is irreflexive, transitive, and
incomparability under it is transitive; so the comparators on indices that the
kernel hands to the library sorts meet the precondition of those sorts. -/
theorem C27_comparators_strict_weak_order :
    ((∀ a : F64, awkward_ListOffsetArray_argsort_order_ascending float64Elem a a = false)
      ∧ (∀ a b c : F64, awkward_ListOffsetArray_argsort_order_ascending float64Elem a b = true →
          awkward_ListOffsetArray_argsort_order_ascending float64Elem b c = true →
          awkward_ListOffsetArray_argsort_order_ascending float64Elem a c = true)
      ∧ (∀ a b c : F64, awkward_ListOffsetArray_argsort_order_ascending float64Elem a b = false →
          awkward_ListOffsetArray_argsort_order_ascending float64Elem b a = false →
          awkward_ListOffsetArray_argsort_order_ascending float64Elem b c = false →
          awkward_ListOffsetArray_argsort_order_ascending float64Elem c b = false →
          awkward_ListOffsetArray_argsort_order_ascending float64Elem a c = false
            ∧ awkward_ListOffsetArray_argsort_order_ascending float64Elem c a = false))
    ∧ ((∀ a : F64, awkward_ListOffsetArray_argsort_order_descending float64Elem a a = false)
      ∧ (∀ a b c : F64,
          awkward_ListOffsetArray_argsort_order_descending float64Elem a b = true →
          awkward_ListOffsetArray_argsort_order_descending float64Elem b c = true →
          awkward_ListOffsetArray_argsort_order_descending float64Elem a c = true)
      ∧ (∀ a b c : F64,
          awkward_ListOffsetArray_argsort_order_descending float64Elem a b = false →
          awkward_ListOffsetArray_argsort_order_descending float64Elem b a = false →
          awkward_ListOffsetArray_argsort_order_descending float64Elem b c = false →
          awkward_ListOffsetArray_argsort_order_descending float64Elem c b = false →
          awkward_ListOffsetArray_argsort_order_descending float64Elem a c = false
            ∧ awkward_ListOffsetArray_argsort_order_descending float64Elem c a = false))
    ∧ (∀ fromptr : Nat → F64, StrictWeakOrder (asc_comp float64Elem fromptr)
        ∧ StrictWeakOrder (desc_comp float64Elem fromptr)) := by
  have hs := float64Elem_lawful.swap
  refine ⟨⟨order_ascending_irrefl float64Elem_lawful,
      order_ascending_trans float64Elem_lawful,
      incomp_trans_of_cotrans _ (order_ascending_cotrans float64Elem_lawful)⟩,
    ⟨?_, ?_, ?_⟩,
    fun fromptr => ⟨asc_comp_swo float64Elem_lawful fromptr,
      desc_comp_swo float64Elem_lawful fromptr⟩⟩
  · intro a
    rw [order_descending_eq]
    exact order_ascending_irrefl hs a
  · intro a b c
    simp only [order_descending_eq]
    exact order_ascending_trans hs a b c
  · intro a b c
    simp only [order_descending_eq]
    exact incomp_trans_of_cotrans _ (order_ascending_cotrans hs) a b c

/-- C28: for the integer element types and for `bool` the generic comparators
are the plain comparisons of the values, `ascending(l, r)` iff `l < r` and
`descending(l, r)` iff `l > r`, because the conversion of an integer (or of a
`bool`) to `double` is never NaN; and the explicit `bool` specialisations agree
with the generic templates on all pairs of booleans. -/
theorem C28_integer_comparators_plain (l r : Int) (a b : Bool) :
    (int64_to_double l).isnan = false
    ∧ awkward_ListOffsetArray_argsort_order_ascending int64Elem l r = decide (l < r)
    ∧ awkward_ListOffsetArray_argsort_order_descending int64Elem l r = decide (l > r)
    ∧ (bool_to_double a).isnan = false
    ∧ awkward_ListOffsetArray_argsort_order_ascending boolElem a b = decide (a.toNat < b.toNat)
    ∧ awkward_ListOffsetArray_argsort_order_descending boolElem a b
        = decide (a.toNat > b.toNat)
    ∧ awkward_ListOffsetArray_argsort_order_ascending_bool a b
        = awkward_ListOffsetArray_argsort_order_ascending boolElem a b
    ∧ awkward_ListOffsetArray_argsort_order_descending_bool a b
        = awkward_ListOffsetArray_argsort_order_descending boolElem a b := by
  refine ⟨isnan_int64_to_double l, ?_, ?_, ?_, ?_, ?_, ?_, ?_⟩
  · simp [awkward_ListOffsetArray_argsort_order_ascending, int64Elem, isnan_int64_to_double]
  · simp [awkward_ListOffsetArray_argsort_order_descending, int64Elem, isnan_int64_to_double]
  · cases a <;> rfl
  · cases a <;> cases b <;> rfl
  · cases a <;> cases b <;> rfl
  · cases a <;> cases b <;> rfl
  · cases a <;> cases b <;> rfl

/-! ## Statements about the positions outside the groups -/

theorem sorted_upto_head (srt : List Nat → List Nat) (offsets : Nat → Int) :
    ∀ k, ∃ X, sorted_upto srt offsets k = List.range (offsets 0).toNat ++ X := by
  intro k
  induction k with
  | zero => exact ⟨[], by simp [sorted_upto]⟩
  | succ k ih =>
    obtain ⟨X, hX⟩ := ih
    exact ⟨X ++ group_sorted srt offsets k, by simp [sorted_upto, hX]⟩

theorem argsort_no_groups {T : Type} (S : StdSort) (E : ElemType T) (fromptr : Nat → T)
    (L : Nat) (offsets : Nat → Int) (n : Nat) (hn : n ≤ 1) (ascending stable : Bool) :
    awkward_ListOffsetArray_argsort S E fromptr L offsets n ascending stable
      = some (ERROR.success, List.range L) := by
  have h0 : n - 1 = 0 := by omega
  rw [argsort_eq_loop]
  simp [argsort_loop, h0]

/-- C29: output positions that belong to no group keep their own index. For
valid offsets and every flag combination, `out[p] = p` for every `p < offsets[0]`
and every `p >= offsets[g]` (`p < L`); and when `offsetslength <= 1`, so that
there is no group, the whole output is `0, 1, ..., L-1`. -/
theorem C29_argsort_frame {T : Type} (S : StdSort) (hS : StdSortContract S)
    (E : ElemType T) (hE : E.Lawful) (fromptr : Nat → T) (L : Nat) (offsets : Nat → Int)
    (n : Nat) (h : ValidOffsets offsets n L) (ascending stable : Bool) :
    (∃ out, awkward_ListOffsetArray_argsort S E fromptr L offsets n ascending stable
        = some (ERROR.success, out)
      ∧ (∀ p : Nat, (p : Int) < offsets 0 → out[p]? = some p)
      ∧ (∀ p : Nat, offsets (n - 1) ≤ (p : Int) → p < L → out[p]? = some p))
    ∧ (∀ (offsets1 : Nat → Int) (n1 : Nat), n1 ≤ 1 →
        awkward_ListOffsetArray_argsort S E fromptr L offsets1 n1 ascending stable
          = some (ERROR.success, List.range L)) := by
  refine ⟨⟨_, argsort_eq hS hE fromptr h ascending stable, ?_, ?_⟩,
    fun offsets1 n1 hn1 => argsort_no_groups S E fromptr L offsets1 n1 hn1 ascending stable⟩
  · intro p hp
    obtain ⟨X, hX⟩ := sorted_upto_head (kernel_sort S E fromptr ascending stable) offsets (n - 1)
    have hp' : p < (offsets 0).toNat := by omega
    simp only [argsort_out, hX, List.append_assoc]
    rw [List.getElem?_append_left (by simpa using hp')]
    exact List.getElem?_range hp'
  · intro p hp hpL
    have hn : n - 1 < n := by have := h.pos; omega
    have h0 := h.nonneg_at hn
    have hlen := length_sorted_upto (kernel_sort_length hS hE fromptr ascending stable) h
      (n - 1) hn
    have hp' : (offsets (n - 1)).toNat ≤ p := by omega
    simp only [argsort_out]
    rw [List.getElem?_append_right (by rw [hlen]; exact hp'), hlen, List.getElem?_range']
    · congr 1
      omega
    · omega

theorem C29_witness :
    ValidOffsets ex_offsets 3 5 ∧
    ((∃ out, awkward_ListOffsetArray_argsort stable_sort float64Elem ex_values 5 ex_offsets 3
        true false = some (ERROR.success, out)
      ∧ (∀ p : Nat, (p : Int) < ex_offsets 0 → out[p]? = some p)
      ∧ (∀ p : Nat, ex_offsets (3 - 1) ≤ (p : Int) → p < 5 → out[p]? = some p))
    ∧ (∀ (offsets1 : Nat → Int) (n1 : Nat), n1 ≤ 1 →
        awkward_ListOffsetArray_argsort stable_sort float64Elem ex_values 5 offsets1 n1
          true false = some (ERROR.success, List.range 5))) :=
  ⟨ex_valid, C29_argsort_frame stable_sort stable_sort_contract float64Elem float64Elem_lawful
    ex_values 5 ex_offsets 3 ex_valid true false⟩

/-! ## Statements about `IndexedOptionArrayBuilder` -/

/-- C30: constructing an `IndexedOptionArrayBuilder` fails with
`std::invalid_argument` if and only if `is_categorical` is true; every
construction that is not categorical succeeds, with `vm_output_data` equal to
`"part" + partition + "-" + form_key + "-" + attribute` and `vm_func_name` equal
to `form_key + "-" + attribute`. -/
theorem C30_indexed_option_construction (F : String → Nat → String) (state_null : Nat)
    (content : FormBuilder) (parameters : List (String × String))
    (form_key form_index : String) (is_categorical : Bool) (attr partition : String) :
    ((∃ what, IndexedOptionArrayBuilder.create F state_null content parameters form_key
        form_index is_categorical attr partition = .error (.invalid_argument what))
      ↔ is_categorical = true)
    ∧ ((∃ b, IndexedOptionArrayBuilder.create F state_null content parameters form_key
        form_index is_categorical attr partition = .ok b) ↔ is_categorical = false)
    ∧ ∃ b, IndexedOptionArrayBuilder.create F state_null content parameters form_key
          form_index false attr partition = .ok b
        ∧ b.vm_output_data = "part" ++ partition ++ "-" ++ form_key ++ "-" ++ attr
        ∧ b.vm_func_name = form_key ++ "-" ++ attr := by
  refine ⟨?_, ?_, _, rfl, rfl, rfl⟩
  · cases is_categorical
    · simp [IndexedOptionArrayBuilder.create, IndexedOptionArrayBuilder.validate]
    · simp [IndexedOptionArrayBuilder.create, IndexedOptionArrayBuilder.validate]
  · cases is_categorical
    · simp [IndexedOptionArrayBuilder.create, IndexedOptionArrayBuilder.validate]
    · simp [IndexedOptionArrayBuilder.create, IndexedOptionArrayBuilder.validate]

/-! ## Statements about offset-delimited lists -/

/-- C23: for every `ListOffsetArray` built from an offsets index of length
`m >= 1`, `length()` equals `m - 1`, so that an offsets index with a single
element represents an array of zero lists; and construction is rejected when
the offsets index is empty. -/
theorem C23_length_is_offsets_minus_one {α : Type} (parameters : List (String × String))
    (o : Int) (os : List Int) (content : List α) (represents_regular is64 : Bool) :
    (∃ a, ListOffsetArrayOf.create parameters (o :: os) content represents_regular is64 = .ok a
      ∧ a.offsets = o :: os ∧ a.content = content
      ∧ a.length = ((o :: os).length : Int) - 1 ∧ a.length = (os.length : Int))
    ∧ (∃ a, ListOffsetArrayOf.create parameters [o] content represents_regular is64 = .ok a
      ∧ a.length = 0)
    ∧ (∃ what, ListOffsetArrayOf.create parameters [] content represents_regular is64
        = .error (.invalid_argument what)) := by
  refine ⟨⟨_, rfl, rfl, rfl, rfl, ?_⟩, ⟨_, rfl, ?_⟩, ⟨_, rfl⟩⟩
  · simp [ListOffsetArrayOf.length]
  · simp [ListOffsetArrayOf.length]

/-- C24: for every valid `ListOffsetArray` with offsets `o_0 <= ... <= o_n`,
`compact_offsets64(true)` returns an offsets sequence of the same length whose
`i`-th entry is `o_i - o_0`, so that its first entry is 0 and every sublist
length is preserved (`[3,5,5,8]` gives `[0,2,2,5]`); when `o_0` is already 0 and
the offsets are 64-bit, the existing offsets are returned unchanged. -/
theorem C24_compact_offsets_rebases {α : Type} (a : ListOffsetArrayOf α) (h : a.Valid) :
    (a.compact_offsets64 true).offsets.length = a.offsets.length
    ∧ (∀ (i : Nat) (o : Int), a.offsets[i]? = some o →
        (a.compact_offsets64 true).offsets[i]? = some (o - a.offsets.headD 0))
    ∧ (a.compact_offsets64 true).offsets.head? = some 0
    ∧ (∀ (i : Nat) (x y : Int), a.offsets[i]? = some x → a.offsets[i + 1]? = some y →
        ∃ x1 y1, (a.compact_offsets64 true).offsets[i]? = some x1
          ∧ (a.compact_offsets64 true).offsets[i + 1]? = some y1 ∧ y1 - x1 = y - x)
    ∧ (a.is64 = true → a.offsets.headD 0 = 0 →
        a.compact_offsets64 true = { offsets := a.offsets, fresh := false })
    ∧ ((ListOffsetArrayOf.mk [] [3, 5, 5, 8] a.content false true).compact_offsets64
          true).offsets = [0, 2, 2, 5] := by
  have hne := h.nonempty
  have key : ∀ (i : Nat) (o : Int), a.offsets[i]? = some o →
      (a.compact_offsets64 true).offsets[i]? = some (o - a.offsets.headD 0) := by
    intro i o hi
    unfold ListOffsetArrayOf.compact_offsets64
    simp only
    split
    · rename_i hc
      simp only [Bool.not_true, Bool.false_or, Bool.and_eq_true, beq_iff_eq] at hc
      rw [hc.2, Int.sub_zero]
      exact hi
    · simp only [if_true, List.getElem?_map, hi, Option.map_some']
  refine ⟨?_, key, ?_, ?_, ?_, ?_⟩
  · unfold ListOffsetArrayOf.compact_offsets64
    simp only
    split
    · rfl
    · simp
  · cases hoff : a.offsets with
    | nil => exact absurd hoff hne
    | cons o os =>
      have h0 : a.offsets[0]? = some o := by simp [hoff]
      have := key 0 o h0
      rw [List.head?_eq_getElem?, this]
      simp [hoff]
  · intro i x y hx hy
    exact ⟨_, _, key i x hx, key (i + 1) y hy, by omega⟩
  · intro h64 hz
    unfold ListOffsetArrayOf.compact_offsets64
    simp only [h64, hz, Bool.not_true, Bool.false_or, beq_self_eq_true, Bool.and_self,
      if_true]
  · rfl

theorem ex_list_array_valid : ex_list_array.Valid where
  nonempty := by decide
  nonneg := by decide
  mono := by simp [ex_list_array]
  bound := by decide

theorem C24_witness :
    ex_list_array.Valid ∧
    ((ex_list_array.compact_offsets64 true).offsets.length = ex_list_array.offsets.length
    ∧ (∀ (i : Nat) (o : Int), ex_list_array.offsets[i]? = some o →
        (ex_list_array.compact_offsets64 true).offsets[i]?
          = some (o - ex_list_array.offsets.headD 0))
    ∧ (ex_list_array.compact_offsets64 true).offsets.head? = some 0
    ∧ (∀ (i : Nat) (x y : Int), ex_list_array.offsets[i]? = some x →
        ex_list_array.offsets[i + 1]? = some y →
        ∃ x1 y1, (ex_list_array.compact_offsets64 true).offsets[i]? = some x1
          ∧ (ex_list_array.compact_offsets64 true).offsets[i + 1]? = some y1
          ∧ y1 - x1 = y - x)
    ∧ (ex_list_array.is64 = true → ex_list_array.offsets.headD 0 = 0 →
        ex_list_array.compact_offsets64 true
          = { offsets := ex_list_array.offsets, fresh := false })
    ∧ ((ListOffsetArrayOf.mk [] [3, 5, 5, 8] ex_list_array.content false
          true).compact_offsets64 true).offsets = [0, 2, 2, 5]) :=
  ⟨ex_list_array_valid, C24_compact_offsets_rebases ex_list_array ex_list_array_valid⟩

/-- C25: for every valid `ListOffsetArray`, `toRegularArray` succeeds if and
only if all sublist lengths `offsets[i+1] - offsets[i]` are identical; otherwise
it fails with a shape error, and it never returns an approximated array: the
size of the array it returns is the length of every sublist, and its length is
the number of sublists. -/
theorem C25_to_regular_iff_equal_lengths {α : Type} (a : ListOffsetArrayOf α)
    (h : a.Valid) :
    ((∃ r, a.toRegularArray = .ok r)
      ↔ ∀ c1 ∈ ListOffsetArrayOf.counts a.offsets,
          ∀ c2 ∈ ListOffsetArrayOf.counts a.offsets, c1 = c2)
    ∧ ((∃ what, a.toRegularArray = .error (.invalid_argument what))
      ↔ ¬ ∀ c1 ∈ ListOffsetArrayOf.counts a.offsets,
          ∀ c2 ∈ ListOffsetArrayOf.counts a.offsets, c1 = c2)
    ∧ (∀ r, a.toRegularArray = .ok r →
        (∀ c ∈ ListOffsetArrayOf.counts a.offsets, c = r.size) ∧ r.length = a.length) := by
  have _ := h
  unfold ListOffsetArrayOf.toRegularArray
  simp only
  cases hc : ListOffsetArrayOf.counts a.offsets with
  | nil => simp
  | cons size rest =>
    by_cases hall : (rest.all fun c => c == size) = true
    · have hall' : ∀ c ∈ rest, c = size := by simpa using hall
      have heq : ∀ c1 ∈ size :: rest, ∀ c2 ∈ size :: rest, c1 = c2 := by
        intro c1 h1 c2 h2
        have e1 : c1 = size := by
          rcases List.mem_cons.mp h1 with e | e
          · exact e
          · exact hall' c1 e
        have e2 : c2 = size := by
          rcases List.mem_cons.mp h2 with e | e
          · exact e
          · exact hall' c2 e
        rw [e1, e2]
      simp only [hall, if_true]
      refine ⟨⟨fun _ => heq, fun _ => ⟨_, rfl⟩⟩,
        ⟨fun hw => (by obtain ⟨_, hw⟩ := hw; cases hw), fun hn => absurd heq hn⟩, ?_⟩
      intro r hr
      cases hr
      exact ⟨fun c hcm => heq c hcm size (List.mem_cons_self _ _), rfl⟩
    · have hneq : ¬ ∀ c1 ∈ size :: rest, ∀ c2 ∈ size :: rest, c1 = c2 := by
        intro hh
        apply hall
        simp only [List.all_eq_true, beq_iff_eq]
        intro c hcm
        exact hh c (List.mem_cons_of_mem _ hcm) size (List.mem_cons_self _ _)
      simp only [hall, Bool.false_eq_true, if_false]
      refine ⟨⟨fun hw => (by obtain ⟨_, hw⟩ := hw; cases hw), fun hh => absurd hh hneq⟩,
        ⟨fun _ => hneq, fun _ => ⟨_, rfl⟩⟩, ?_⟩
      intro r hr
      cases hr

theorem C25_witness :
    ex_list_array.Valid ∧
    (((∃ r, ex_list_array.toRegularArray = .ok r)
      ↔ ∀ c1 ∈ ListOffsetArrayOf.counts ex_list_array.offsets,
          ∀ c2 ∈ ListOffsetArrayOf.counts ex_list_array.offsets, c1 = c2)
    ∧ ((∃ what, ex_list_array.toRegularArray = .error (.invalid_argument what))
      ↔ ¬ ∀ c1 ∈ ListOffsetArrayOf.counts ex_list_array.offsets,
          ∀ c2 ∈ ListOffsetArrayOf.counts ex_list_array.offsets, c1 = c2)
    ∧ (∀ r, ex_list_array.toRegularArray = .ok r →
        (∀ c ∈ ListOffsetArrayOf.counts ex_list_array.offsets, c = r.size)
          ∧ r.length = ex_list_array.length)) :=
  ⟨ex_list_array_valid, C25_to_regular_iff_equal_lengths ex_list_array ex_list_array_valid⟩

/-! ## Statements about sequences of `to_buffers` calls -/

theorem digitChar_value (d : Nat) (hd : d < 10) : (Nat.digitChar d).toNat - 48 = d := by
  interval_cases d <;> rfl

theorem foldl_toDigitsCore :
    ∀ (fuel n : Nat) (ds : List Char), n < fuel →
      List.foldl (fun a c => a * 10 + (c.toNat - 48)) 0 (Nat.toDigitsCore 10 fuel n ds)
        = List.foldl (fun a c => a * 10 + (c.toNat - 48)) n ds := by
  intro fuel
  induction fuel with
  | zero => intro n ds h; omega
  | succ fuel ih =>
    intro n ds h
    unfold Nat.toDigitsCore
    simp only
    split
    · rename_i h0
      simp only [List.foldl_cons, Nat.zero_mul, Nat.zero_add,
        digitChar_value (n % 10) (Nat.mod_lt _ (by decide))]
      have : n % 10 = n := by omega
      rw [this]
    · rename_i h0
      rw [ih (n / 10) _ (by omega)]
      simp only [List.foldl_cons, digitChar_value (n % 10) (Nat.mod_lt _ (by decide))]
      have : n / 10 * 10 + n % 10 = n := by omega
      rw [this]

/-- The decimal numeral of a number reads back as that number. -/
theorem decimal_value_toString (n : Nat) : decimal_value (toString n).data = n := by
  show List.foldl _ 0 (Nat.toDigitsCore 10 (n + 1) n []) = n
  rw [foldl_toDigitsCore (n + 1) n [] (Nat.lt_succ_self n)]
  rfl

theorem toString_nat_injective {a b : Nat} (h : toString a = toString b) : a = b := by
  have := congrArg (fun s : String => decimal_value s.data) h
  simpa [decimal_value_toString] using this

theorem node_data_name_injective {a b : Nat} (h : node_data_name a = node_data_name b) :
    a = b := by
  unfold node_data_name at h
  have hd := congrArg String.data h
  simp only [String.data_append] at hd
  have h1 := List.append_cancel_right hd
  have h2 := List.append_cancel_left h1
  exact toString_nat_injective (String.ext h2)

theorem mem_seq_names {x : String} : ∀ (n k : Nat), x ∈ seq_names k n →
    ∃ i, i < n ∧ x = node_data_name (k + i) := by
  intro n
  induction n with
  | zero => intro k h; simp [seq_names] at h
  | succ n ih =>
    intro k h
    simp only [seq_names, List.mem_cons] at h
    rcases h with h | h
    · exact ⟨0, by omega, by simpa using h⟩
    · obtain ⟨i, hi, hx⟩ := ih (k + 1) h
      exact ⟨i + 1, by omega, by rw [hx]; congr 1; omega⟩

theorem seq_names_nodup : ∀ (n k : Nat), (seq_names k n).Nodup := by
  intro n
  induction n with
  | zero => intro k; simp [seq_names]
  | succ n ih =>
    intro k
    simp only [seq_names, List.nodup_cons]
    refine ⟨?_, ih (k + 1)⟩
    intro hmem
    obtain ⟨i, _, hx⟩ := mem_seq_names n (k + 1) hmem
    have := node_data_name_injective hx
    omega

theorem seq_names_getElem? : ∀ (n k i : Nat), i < n →
    (seq_names k n)[i]? = some (node_data_name (k + i)) := by
  intro n
  induction n with
  | zero => intro k i h; omega
  | succ n ih =>
    intro k i h
    cases i with
    | zero => simp [seq_names]
    | succ i =>
      simp only [seq_names, List.getElem?_cons_succ]
      rw [ih (k + 1) i (by omega)]
      congr 2
      omega

theorem seq_forms_getElem? : ∀ (bs : List LeafBuilder) (k i : Nat) (b : LeafBuilder),
    bs[i]? = some b →
    (seq_forms bs k)[i]? = some (leaf_form b.primitive ("node" ++ toString (k + i))) := by
  intro bs
  induction bs with
  | nil => intro k i b h; simp at h
  | cons b0 bs ih =>
    intro k i b h
    cases i with
    | zero =>
      simp only [List.getElem?_cons_zero, Option.some.injEq] at h
      subst h
      simp [seq_forms]
    | succ i =>
      simp only [List.getElem?_cons_succ] at h
      simp only [seq_forms, List.getElem?_cons_succ]
      rw [ih (k + 1) i b h]
      congr 4
      omega

/-- One call: the buffer written, the counter and the schema fragment. -/
theorem LeafBuilder.to_buffers_eq (b : LeafBuilder) (container : BuffersContainer) (k : Nat) :
    ∃ buf, b.to_buffers container (k : Int)
        = .ok { container := container ++ [buf], form_key_id := int64_wrap ((k : Int) + 1),
                form := leaf_form b.primitive ("node" ++ toString k) }
      ∧ buf.name = node_data_name k := by
  cases b with
  | int64 b => exact ⟨_, rfl, rfl⟩
  | complex128 b => exact ⟨_, rfl, rfl⟩

theorem int64_wrap_nat (k : Nat) (hk : k < 2 ^ 63) : int64_wrap (k : Int) = (k : Int) := by
  have e63 : (2 : Nat) ^ 63 = 9223372036854775808 := by norm_num
  have e63i : (2 : Int) ^ 63 = 9223372036854775808 := by norm_num
  rw [e63] at hk
  apply int64_wrap_of_range
  · rw [e63i]; omega
  · rw [e63i]; omega

theorem to_buffers_seq_eq : ∀ (bs : List LeafBuilder) (container : BuffersContainer) (k : Nat),
    k < 2 ^ 63 → k + bs.length ≤ 2 ^ 63 →
    ∃ added, to_buffers_seq bs container (k : Int)
        = .ok (container ++ added, int64_wrap ((k + bs.length : Nat) : Int), seq_forms bs k)
      ∧ added.map (fun buf => buf.name) = seq_names k bs.length := by
  intro bs
  induction bs with
  | nil =>
    intro container k hk _
    refine ⟨[], ?_, rfl⟩
    simp only [to_buffers_seq, seq_forms, List.append_nil, List.length_nil, Nat.add_zero,
      int64_wrap_nat k hk]
  | cons b bs ih =>
    intro container k hk hn
    obtain ⟨buf, hb, hname⟩ := LeafBuilder.to_buffers_eq b container k
    simp only [List.length_cons] at hn
    by_cases hbs : bs = []
    · subst hbs
      refine ⟨[buf], ?_, ?_⟩
      · unfold to_buffers_seq
        rw [hb]
        simp only [to_buffers_seq, seq_forms, List.length_cons, List.length_nil]
        congr 3
      · simp only [List.map_cons, List.map_nil, hname, List.length_cons, List.length_nil,
          seq_names]
    · have hpos : 0 < bs.length := List.length_pos.mpr hbs
      have hk1 : k + 1 < 2 ^ 63 := by omega
      have hw : int64_wrap ((k : Int) + 1) = ((k + 1 : Nat) : Int) := by
        have := int64_wrap_nat (k + 1) hk1
        push_cast at this ⊢
        exact this
      obtain ⟨added, ha, hnames⟩ := ih (container ++ [buf]) (k + 1) hk1 (by omega)
      refine ⟨buf :: added, ?_, ?_⟩
      · unfold to_buffers_seq
        rw [hb]
        simp only [hw]
        rw [ha]
        have e : k + 1 + bs.length = k + (bs.length + 1) := by omega
        simp only [seq_forms, List.append_assoc, List.singleton_append, List.length_cons, e]
      · simp only [List.map_cons, hname, hnames, List.length_cons, seq_names]

/-- C22, as the code has it: for a finite sequence of `n` `to_buffers` calls on
`Int64Builder` and `Complex128Builder` instances that share one counter started
at `k >= 0`, with `k + n <= 2^63` so that every counter value used is an
`int64_t` value, the `i`-th call (from 0) uses the buffer name
`"node" + decimal(k+i) + "-data"`, so the names are pairwise distinct; and a
second run of the same sequence with a fresh counter started at the same `k`,
whatever the container holds, gives the same names and the same schema
fragments. -/
theorem C22_to_buffers_names (bs : List LeafBuilder) (container container2 : BuffersContainer)
    (k : Nat) (hk : k < 2 ^ 63) (hn : k + bs.length ≤ 2 ^ 63) :
    ∃ added added2 forms,
      to_buffers_seq bs container (k : Int)
        = .ok (container ++ added, int64_wrap ((k : Int) + (bs.length : Int)), forms)
      ∧ to_buffers_seq bs container2 (k : Int)
        = .ok (container2 ++ added2, int64_wrap ((k : Int) + (bs.length : Int)), forms)
      ∧ added.length = bs.length
      ∧ (∀ i : Nat, i < bs.length →
          (added.map (fun buf => buf.name))[i]? = some ("node" ++ toString (k + i) ++ "-data"))
      ∧ (added.map (fun buf => buf.name)).Nodup
      ∧ added2.map (fun buf => buf.name) = added.map (fun buf => buf.name)
      ∧ (∀ (i : Nat) (b : LeafBuilder), bs[i]? = some b →
          forms[i]? = some (leaf_form b.primitive ("node" ++ toString (k + i)))) := by
  obtain ⟨added, h1, hn1⟩ := to_buffers_seq_eq bs container k hk hn
  obtain ⟨added2, h2, hn2⟩ := to_buffers_seq_eq bs container2 k hk hn
  have hlen : (seq_names k bs.length).length = bs.length := by
    have : ∀ (n k : Nat), (seq_names k n).length = n := by
      intro n
      induction n with
      | zero => intro k; rfl
      | succ n ih => intro k; simp [seq_names, ih]
    exact this _ _
  refine ⟨added, added2, seq_forms bs k, ?_, ?_, ?_, ?_, ?_, ?_, ?_⟩
  · rw [h1]; push_cast; rfl
  · rw [h2]; push_cast; rfl
  · rw [← hlen, ← hn1, List.length_map]
  · intro i hi
    rw [hn1]
    exact seq_names_getElem? _ _ _ hi
  · rw [hn1]
    exact seq_names_nodup _ _
  · rw [hn1, hn2]
  · exact seq_forms_getElem? bs k

theorem C22_witness :
    9223372036854775806 < 2 ^ 63
    ∧ 9223372036854775806
        + [LeafBuilder.int64 (Int64Builder.fromempty { initial := 2, resize := 2 }),
            LeafBuilder.complex128 ex_complex_builder].length ≤ 2 ^ 63
    ∧ ∃ added added2 forms,
      to_buffers_seq [LeafBuilder.int64 (Int64Builder.fromempty { initial := 2, resize := 2 }),
          LeafBuilder.complex128 ex_complex_builder] [] ((9223372036854775806 : Nat) : Int)
        = .ok ([] ++ added, int64_wrap (((9223372036854775806 : Nat) : Int)
            + (([LeafBuilder.int64 (Int64Builder.fromempty { initial := 2, resize := 2 }),
                LeafBuilder.complex128 ex_complex_builder].length : Nat) : Int)), forms)
      ∧ to_buffers_seq [LeafBuilder.int64 (Int64Builder.fromempty { initial := 2, resize := 2 }),
          LeafBuilder.complex128 ex_complex_builder]
          [{ name := "x", data := .int64 [], num_bytes := 0 }]
          ((9223372036854775806 : Nat) : Int)
        = .ok ([{ name := "x", data := .int64 [], num_bytes := 0 }] ++ added2,
            int64_wrap (((9223372036854775806 : Nat) : Int)
            + (([LeafBuilder.int64 (Int64Builder.fromempty { initial := 2, resize := 2 }),
                LeafBuilder.complex128 ex_complex_builder].length : Nat) : Int)), forms)
      ∧ added.length
          = [LeafBuilder.int64 (Int64Builder.fromempty { initial := 2, resize := 2 }),
              LeafBuilder.complex128 ex_complex_builder].length
      ∧ (∀ i : Nat,
          i < [LeafBuilder.int64 (Int64Builder.fromempty { initial := 2, resize := 2 }),
              LeafBuilder.complex128 ex_complex_builder].length →
          (added.map (fun buf => buf.name))[i]?
            = some ("node" ++ toString (9223372036854775806 + i) ++ "-data"))
      ∧ (added.map (fun buf => buf.name)).Nodup
      ∧ added2.map (fun buf => buf.name) = added.map (fun buf => buf.name)
      ∧ (∀ (i : Nat) (b : LeafBuilder),
          [LeafBuilder.int64 (Int64Builder.fromempty { initial := 2, resize := 2 }),
              LeafBuilder.complex128 ex_complex_builder][i]? = some b →
          forms[i]? = some (leaf_form b.primitive
            ("node" ++ toString (9223372036854775806 + i)))) :=
  ⟨by decide, by decide,
    C22_to_buffers_names
      [LeafBuilder.int64 (Int64Builder.fromempty { initial := 2, resize := 2 }),
        LeafBuilder.complex128 ex_complex_builder] []
      [{ name := "x", data := .int64 [], num_bytes := 0 }] 9223372036854775806
      (by decide) (by decide)⟩

/-- C22 as stated fails for two calls that share a counter started at
`k = 2^63 - 1`, the largest `int64_t`: the first `form_key_id++` overflows, and
the second call names its buffer `node-9223372036854775808-data`, not
`"node" + decimal(k + 1) + "-data"`. -/
theorem C22_second_name_overflows :
    ∃ added final forms,
      to_buffers_seq [LeafBuilder.int64 (Int64Builder.fromempty { initial := 2, resize := 2 }),
          LeafBuilder.int64 (Int64Builder.fromempty { initial := 2, resize := 2 })] []
          ((9223372036854775807 : Nat) : Int) = .ok (added, final, forms)
      ∧ (added.map (fun buf => buf.name))[1]? = some "node-9223372036854775808-data"
      ∧ (added.map (fun buf => buf.name))[1]?
          ≠ some ("node" ++ toString (9223372036854775807 + 1) ++ "-data") :=
  ⟨_, _, _, rfl, by decide, by decide⟩

end Awkward
